import Mathlib

/-!
# Ipc::QtSlaveLauncher

A shallow embedding of `lib/src/Ipc/QtSlaveLauncher.cpp`: the launcher object
(`m_process`, `applicationFilePath()`), the heap of `QProcess` objects it
allocates with `new QProcess`, the `QTimer` children created by `stop()`, and
the lines written with `qWarning`.

The three member functions `start`, `stop` and `isRunning` are translated
statement by statement.  `m_processMutex` is not represented: every member
function and every event-loop callback below runs to completion before the
next one begins.  The pieces of Qt the code calls (`QProcess`, `QTimer`,
signal/slot connections) are given by small definitions that follow the Qt
documentation; each one says which Qt behaviour it stands for.
-/

namespace Ipc

set_option linter.dupNamespace false

/-! ## Build configuration -/

/-- Compile-time switches and constants that the source file tests or reads
but does not define itself. -/
structure Build where
  /-- Whether `ITALC_BUILD_WIN32` is defined (`#ifdef ITALC_BUILD_WIN32`) -/
  ITALC_BUILD_WIN32 : Bool
  /-- The value of `QT_VERSION`, compared with `0x050000` in `stop()` -/
  QT_VERSION : Nat
  /-- Whether `DEBUG` is defined (`#ifndef DEBUG` in `start()`) -/
  DEBUG : Bool
  /-- The value of `Logger::LogLevelDebug`, an enumerator of `Logger.h` -/
  LogLevelDebug : Int
deriving DecidableEq

/-- The macro `DEV_NULL`: `"NUL"` under `ITALC_BUILD_WIN32`, `"/dev/null"` otherwise. -/
def DEV_NULL (b : Build) : String :=
  if b.ITALC_BUILD_WIN32 then "NUL" else "/dev/null"

/-! ## Qt objects -/

/-- Identity of an object made by `new QProcess`: its position in the heap. -/
abbrev Handle := Nat

/-- The enumeration `QProcess::ProcessState`. -/
inductive ProcessState where
  | NotRunning
  | Starting
  | Running
deriving DecidableEq

/-- The enumeration `QProcess::ProcessChannelMode`; `SeparateChannels` is what a new `QProcess` has. -/
inductive ProcessChannelMode where
  | SeparateChannels
  | ForwardedChannels
deriving DecidableEq

/-- What the operating system knows about the child of a `QProcess`.  The
`QProcess` object learns of a change only when it polls (see `QProcess.poll`). -/
inductive OsStatus where
  /-- No call of `QProcess::start` was made on the object -/
  | notLaunched
  /-- launch requested, outcome not yet decided -/
  | launching
  /-- the child runs -/
  | alive
  /-- the launch failed, there is no child -/
  | failed
  /-- the child ran and has exited -/
  | exited
deriving DecidableEq

/-- A termination request made on a `QProcess`: `terminate()` or `kill()`. -/
inductive Request where
  | terminate
  | kill
deriving DecidableEq

/-- What is connected to `QTimer::timeout` in `stop()`. -/
inductive Slot where
  /-- Qt 5 branch: the lambda `[=]() { qWarning(...); m_process->terminate();
  m_process->kill(); }`.  Inside a member function `m_process` is
  `this->m_process`, so `[=]` captures `this` and the member is read when the
  lambda runs. -/
  | lambda
  /-- Qt 4 branch: `SLOT(terminate())` of the receiver given to `connect` -/
  | terminate (receiver : Handle)
  /-- Qt 4 branch: `SLOT(kill())` of the receiver given to `connect` -/
  | kill (receiver : Handle)
deriving DecidableEq

/-- A `QTimer`. -/
structure QTimer where
  interval : Nat
  singleShot : Bool
  active : Bool
  timeoutSlots : List Slot
deriving DecidableEq

/-- The expression `new QTimer( parent )`: not active, and `singleShot` is `false`, the
default of that property. -/
def QTimer.new : QTimer :=
  { interval := 0, singleShot := false, active := false, timeoutSlots := [] }

/-- A `connect( timer, timeout, ... )`: slots run in the order they were connected. -/
def QTimer.connectTimeout (t : QTimer) (s : Slot) : QTimer :=
  { t with timeoutSlots := t.timeoutSlots ++ [s] }

/-- The call `QTimer::start( msec )`. -/
def QTimer.start (t : QTimer) (msec : Nat) : QTimer :=
  { t with interval := msec, active := true }

/-- A `QProcess` object together with the OS child it stands for. -/
structure QProcess where
  /-- what `state()` returns -/
  state : ProcessState
  os : OsStatus
  channelMode : ProcessChannelMode
  standardOutputFile : Option String
  standardErrorFile : Option String
  /-- program and arguments passed to `QProcess::start` -/
  program : Option (String × List String)
  /-- the `terminate()` and `kill()` calls made on the object, oldest first -/
  requests : List Request
  /-- number of connections from `finished` to the object's own `deleteLater` -/
  finishedDeleteLater : Nat
  /-- the `QTimer` children -/
  timers : List QTimer
  /-- the object has been destroyed -/
  deleted : Bool
deriving DecidableEq

/-- The expression `new QProcess`. -/
def QProcess.new : QProcess :=
  { state := .NotRunning, os := .notLaunched, channelMode := .SeparateChannels,
    standardOutputFile := none, standardErrorFile := none, program := none,
    requests := [], finishedDeleteLater := 0, timers := [], deleted := false }

/-- What a read through a pointer to no heap object yields: a destroyed
object.  Tracked pointers of reachable worlds always denote heap objects
(`inv_of_reachable`). -/
def QProcess.destroyed : QProcess :=
  { QProcess.new with deleted := true }

/-- The call `QProcess::setProcessChannelMode`. -/
def QProcess.setProcessChannelMode (p : QProcess) (m : ProcessChannelMode) : QProcess :=
  { p with channelMode := m }

/-- The call `QProcess::setStandardOutputFile`. -/
def QProcess.setStandardOutputFile (p : QProcess) (f : String) : QProcess :=
  { p with standardOutputFile := some f }

/-- The call `QProcess::setStandardErrorFile`. -/
def QProcess.setStandardErrorFile (p : QProcess) (f : String) : QProcess :=
  { p with standardErrorFile := some f }

/-- The call `QProcess::start( program, arguments )`: the object enters `Starting` at
once; whether the launch succeeds is reported later.  On an object that is
not `NotRunning` Qt only prints a warning and returns. -/
def QProcess.start (p : QProcess) (program : String) (arguments : List String) : QProcess :=
  if p.state ≠ .NotRunning then p
  else { p with state := .Starting, os := .launching, program := some (program, arguments) }

/-- The call `QProcess::terminate()`. -/
def QProcess.terminate (p : QProcess) : QProcess :=
  { p with requests := p.requests ++ [.terminate] }

/-- The call `QProcess::kill()`. -/
def QProcess.kill (p : QProcess) : QProcess :=
  { p with requests := p.requests ++ [.kill] }

/-- Destruction of a `QProcess`: by `delete`, or by `deleteLater()` once
control is back in the event loop.  The `QTimer` children are destroyed with
their parent and all connections go away.  Both uses in this file act on an
object whose state is `NotRunning`. -/
def QProcess.destroy (p : QProcess) : QProcess :=
  { p with deleted := true, timers := [], finishedDeleteLater := 0 }

/-- Emission of `QProcess::finished`: each connection to `deleteLater` runs. -/
def QProcess.emitFinished (p : QProcess) : QProcess :=
  if p.finishedDeleteLater = 0 then p else p.destroy

/-- The `QProcess` object looks at the operating system: done by
`waitForFinished( 0 )` and by the event loop when the OS notifies it.
A started child makes the object `Running`; a failed launch makes it
`NotRunning` without `finished`; an exited child makes it `NotRunning` and
`finished` is emitted. -/
def QProcess.poll (p : QProcess) : QProcess :=
  if p.deleted then p
  else
    match p.state, p.os with
    | .Starting, .alive => { p with state := .Running }
    | .Starting, .failed => { p with state := .NotRunning }
    | .Starting, .exited => QProcess.emitFinished { p with state := .NotRunning }
    | .Running, .exited => QProcess.emitFinished { p with state := .NotRunning }
    | _, _ => p

/-- The operating system reports that the launch succeeded. -/
def QProcess.osLaunched (p : QProcess) : QProcess :=
  if p.os = .launching then { p with os := .alive } else p

/-- The operating system reports that the launch failed. -/
def QProcess.osLaunchFailed (p : QProcess) : QProcess :=
  if p.os = .launching then { p with os := .failed } else p

/-- The child exits. -/
def QProcess.osExited (p : QProcess) : QProcess :=
  if p.os = .alive then { p with os := .exited } else p

/-! ## The launcher and its world -/

/-- A line written through `qWarning`. -/
inductive LogEntry where
  /-- A call `qWarning( text )` -/
  | warning (text : String)
  /-- The statement `qWarning() << applicationFilePath() << arguments` -/
  | launchLine (applicationFilePath : String) (arguments : List String)
deriving DecidableEq

/-- The launcher object and everything it acts on. -/
structure World where
  /-- What `SlaveLauncher::applicationFilePath()` returns, fixed by the constructor -/
  applicationFilePath : String
  /-- the member `m_process`; `none` is `NULL` -/
  m_process : Option Handle
  /-- every object ever made by `new QProcess`, in creation order -/
  heap : List QProcess
  /-- the `qWarning` output, oldest first -/
  log : List LogEntry
deriving DecidableEq

/-- Apply `f` to the element at position `h`, if there is one. -/
def modifyAt (f : QProcess → QProcess) : List QProcess → Handle → List QProcess
  | [], _ => []
  | p :: ps, 0 => f p :: ps
  | p :: ps, h + 1 => p :: modifyAt f ps h

/-- The object a pointer denotes. -/
def World.deref (w : World) (h : Handle) : QProcess :=
  (w.heap[h]?).getD QProcess.destroyed

/-- A call of a `QProcess` member through a pointer. -/
def World.update (w : World) (h : Handle) (f : QProcess → QProcess) : World :=
  { w with heap := modifyAt f w.heap h }

/-- The text of the warning in the Qt 5 lambda. -/
def stillRunningText : String := "Slave still running, terminating it now."

/-- The timer `killTimer` that `stop()` builds for the process `h`: created,
connected (by the branch that `QT_VERSION` selects) and started with 5000. -/
def killTimer (b : Build) (h : Handle) : QTimer :=
  if b.QT_VERSION ≥ 0x050000 then
    (QTimer.new.connectTimeout Slot.lambda).start 5000
  else
    ((QTimer.new.connectTimeout (Slot.terminate h)).connectTimeout (Slot.kill h)).start 5000

namespace QtSlaveLauncher

/-- The constructor: `m_process( NULL )`. -/
def QtSlaveLauncher (applicationFilePath : String) : World :=
  { applicationFilePath := applicationFilePath, m_process := none, heap := [], log := [] }

/-- The member function `QtSlaveLauncher::stop()`. -/
def stop (b : Build) (w : World) : World :=
  match w.m_process with
  | some h =>
    if (w.deref h).state ≠ .NotRunning then
      { w.update h (fun p =>
          { p with finishedDeleteLater := p.finishedDeleteLater + 1,
                   timers := p.timers ++ [killTimer b h] }) with m_process := none }
    else
      { w.update h QProcess.destroy with m_process := none }
  | none => w

/-- The member function `QtSlaveLauncher::start( arguments )`; `logLevel` is what
`ItalcCore::config->logLevel()` returns during the call. -/
def start (b : Build) (logLevel : Int) (arguments : List String) (w : World) : World :=
  let w := stop b w
  let h := w.heap.length
  let p := QProcess.new
  let p :=
    if logLevel ≥ b.LogLevelDebug then
      p.setProcessChannelMode .ForwardedChannels
    else
      (p.setStandardOutputFile (DEV_NULL b)).setStandardErrorFile (DEV_NULL b)
  if b.DEBUG then
    { w with m_process := some h, heap := w.heap ++ [p],
             log := w.log ++ [LogEntry.launchLine w.applicationFilePath arguments] }
  else
    { w with m_process := some h,
             heap := w.heap ++ [p.start w.applicationFilePath arguments] }

/-- The member function `QtSlaveLauncher::isRunning()`: the returned flag and the world after the call. -/
def isRunning (w : World) : Bool × World :=
  match w.m_process with
  | some h =>
    let w := w.update h QProcess.poll
    ((w.deref h).state != .NotRunning, w)
  | none => (false, w)

end QtSlaveLauncher

/-! ## Event-loop callbacks and traces -/

/-- How a callback can abort the program. -/
inductive Fault where
  /-- a member function called through a `NULL` pointer -/
  | nullPointerDereference
deriving DecidableEq

/-- Run one slot connected to `QTimer::timeout`. -/
def Slot.invoke (s : Slot) (w : World) : Except Fault World :=
  match s with
  | .lambda =>
    let w := { w with log := w.log ++ [LogEntry.warning stillRunningText] }
    match w.m_process with
    | some h => .ok ((w.update h QProcess.terminate).update h QProcess.kill)
    | none => .error .nullPointerDereference
  | .terminate r => .ok (w.update r QProcess.terminate)
  | .kill r => .ok (w.update r QProcess.kill)

/-- Run slots one after the other. -/
def invokeAll : List Slot → World → Except Fault World
  | [], w => .ok w
  | s :: ss, w =>
    match s.invoke w with
    | .ok w1 => invokeAll ss w1
    | .error f => .error f

/-- Switch off the timer at position `i`. -/
def deactivate : List QTimer → Nat → List QTimer
  | [], _ => []
  | t :: ts, 0 => { t with active := false } :: ts
  | t :: ts, i + 1 => t :: deactivate ts i

/-- The interval of timer `i` of process object `h` elapses.  Nothing happens
unless that timer exists and is active.  A single-shot timer is switched off
before `timeout` is emitted; any other timer stays active. -/
def timeout (w : World) (h : Handle) (i : Nat) : Except Fault World :=
  match (w.deref h).timers[i]? with
  | some t =>
    if t.active then
      let w1 := if t.singleShot then w.update h (fun p => { p with timers := deactivate p.timers i })
                else w
      invokeAll t.timeoutSlots w1
    else .ok w
  | none => .ok w

/-- Everything that can happen to a launcher. -/
inductive Event where
  | start (logLevel : Int) (arguments : List String)
  | stop
  | isRunning
  /-- timer `i` of process object `h` fires -/
  | timeout (h : Handle) (i : Nat)
  /-- the OS reports the launch of the child of `h` as successful -/
  | osLaunched (h : Handle)
  /-- the OS reports the launch of the child of `h` as failed -/
  | osLaunchFailed (h : Handle)
  /-- the child of `h` exits -/
  | osExited (h : Handle)
  /-- the event loop lets process object `h` look at the OS -/
  | processEvents (h : Handle)
deriving DecidableEq

/-- One event. -/
def step (b : Build) (w : World) : Event → Except Fault World
  | .start logLevel arguments => .ok (QtSlaveLauncher.start b logLevel arguments w)
  | .stop => .ok (QtSlaveLauncher.stop b w)
  | .isRunning => .ok (QtSlaveLauncher.isRunning w).2
  | .timeout h i => timeout w h i
  | .osLaunched h => .ok (w.update h QProcess.osLaunched)
  | .osLaunchFailed h => .ok (w.update h QProcess.osLaunchFailed)
  | .osExited h => .ok (w.update h QProcess.osExited)
  | .processEvents h => .ok (w.update h QProcess.poll)

/-- A sequence of events, stopping at the first fault. -/
def run (b : Build) : World → List Event → Except Fault World
  | w, [] => .ok w
  | w, e :: es =>
    match step b w e with
    | .ok w1 => run b w1 es
    | .error f => .error f

/-- The worlds a launcher constructed with some path can get into. -/
def Reachable (b : Build) (w : World) : Prop :=
  ∃ path es, run b (QtSlaveLauncher.QtSlaveLauncher path) es = .ok w

/-! ## The invariant of reachable worlds -/

/-- The pairs of cached state and OS status a `QProcess` can be in: the cached
state never runs ahead of the operating system. -/
def coherent : ProcessState → OsStatus → Bool
  | .NotRunning, .notLaunched => true
  | .NotRunning, .failed => true
  | .NotRunning, .exited => true
  | .Starting, .launching => true
  | .Starting, .alive => true
  | .Starting, .failed => true
  | .Starting, .exited => true
  | .Running, .alive => true
  | .Running, .exited => true
  | _, _ => false

/-- What holds of the process object `h` when `m` is the value of `m_process`. -/
structure Shape (b : Build) (m : Option Handle) (h : Handle) (p : QProcess) : Prop where
  tracked : m = some h → p.deleted = false ∧ p.timers = [] ∧ p.finishedDeleteLater = 0
  untracked : m ≠ some h →
    (p.deleted = true ∧ p.timers = [] ∧ p.finishedDeleteLater = 0) ∨
    (p.deleted = false ∧ p.timers = [killTimer b h] ∧ p.finishedDeleteLater = 1 ∧
      (p.state = .NotRunning → p.os = .failed))
  coh : coherent p.state p.os = true
  dead : p.deleted = true → p.state = .NotRunning

/-- The invariant: `m_process` denotes a heap object, and every heap object
has the shape that goes with being tracked or not. -/
structure Inv (b : Build) (w : World) : Prop where
  valid : ∀ h, w.m_process = some h → h < w.heap.length
  shape : ∀ h, h < w.heap.length → Shape b w.m_process h (w.deref h)

/-! ## Vocabulary of the properties -/

/-- The process object `h` is the one `m_process` points to. -/
def World.isTracked (w : World) (h : Handle) : Prop :=
  w.m_process = some h

/-- The process object `h` has been destroyed. -/
def World.isReleased (w : World) (h : Handle) : Prop :=
  (w.deref h).deleted = true

/-- The timers of process object `h` that are armed. -/
def World.armedTimers (w : World) (h : Handle) : List QTimer :=
  (w.deref h).timers.filter (fun t => t.active)

/-- The process object `h` has been handed over by `stop()`: it is not
tracked and not destroyed, exactly one timer is armed for it, that timer has
an interval of 5000 ms, and `finished` is connected to `deleteLater`. -/
def World.isEscalating (w : World) (h : Handle) : Prop :=
  w.m_process ≠ some h ∧ (w.deref h).deleted = false ∧
    (∃ t, w.armedTimers h = [t] ∧ t.interval = 5000) ∧
    0 < (w.deref h).finishedDeleteLater

/-- How the output of a child is routed: channel mode, and the files that
standard output and standard error are redirected to. -/
def QProcess.outputRouting (p : QProcess) : ProcessChannelMode × Option String × Option String :=
  (p.channelMode, p.standardOutputFile, p.standardErrorFile)

/-- The child of process object `h` runs at the OS level. -/
def World.runningAtOs (w : World) (h : Handle) : Prop :=
  (w.deref h).os = .alive

/-- The world after a sequence of events, or the starting world when the
sequence faults. -/
def runOr (b : Build) (w : World) (es : List Event) : World :=
  match run b w es with
  | .ok w1 => w1
  | .error _ => w

/-- A POSIX build against Qt 4.8 without `DEBUG`; `LogLevelDebug` is 5. -/
def qt4Build : Build :=
  { ITALC_BUILD_WIN32 := false, QT_VERSION := 0x040800, DEBUG := false, LogLevelDebug := 5 }

/-- A POSIX build against Qt 5.6 without `DEBUG`; `LogLevelDebug` is 5. -/
def qt5Build : Build :=
  { ITALC_BUILD_WIN32 := false, QT_VERSION := 0x050600, DEBUG := false, LogLevelDebug := 5 }

/-- A Windows build against Qt 5.6 with `DEBUG` defined. -/
def debugBuild : Build :=
  { ITALC_BUILD_WIN32 := true, QT_VERSION := 0x050600, DEBUG := true, LogLevelDebug := 5 }

/-- A launcher whose first child has been launched and seen running. -/
def oneRunning (b : Build) : World :=
  runOr b (QtSlaveLauncher.QtSlaveLauncher "/usr/bin/slave")
    [.start 3 ["-a"], .osLaunched 0, .processEvents 0]

instance (w : World) (h : Handle) : Decidable (w.isTracked h) :=
  inferInstanceAs (Decidable (w.m_process = some h))

instance (w : World) (h : Handle) : Decidable (w.isReleased h) :=
  inferInstanceAs (Decidable ((w.deref h).deleted = true))

instance (w : World) (h : Handle) : Decidable (w.runningAtOs h) :=
  inferInstanceAs (Decidable ((w.deref h).os = .alive))

/-- The event is a call of `start()`. -/
def Event.isStart : Event → Bool
  | .start _ _ => true
  | _ => false

/-- A launcher restarted while its first child runs: both launches succeed. -/
def restarted : World :=
  runOr qt5Build (QtSlaveLauncher.QtSlaveLauncher "/usr/bin/slave")
    [.start 3 ["-a"], .osLaunched 0, .processEvents 0,
     .start 3 ["-b"], .osLaunched 1, .processEvents 1]

/-- A launcher whose running child was stopped and then exited on its own;
the event loop has not yet looked at it. -/
def stoppedThenExited : World :=
  runOr qt5Build (QtSlaveLauncher.QtSlaveLauncher "/usr/bin/slave")
    [.start 3 ["-a"], .osLaunched 0, .processEvents 0, .stop, .osExited 0]

/-- Qt 4 build: one `stop()` of a running child, then its timer fires twice. -/
def firedTwiceQt4 : World :=
  runOr qt4Build (QtSlaveLauncher.QtSlaveLauncher "/usr/bin/slave")
    [.start 3 ["-a"], .osLaunched 0, .processEvents 0, .stop, .timeout 0 0, .timeout 0 0]

/-- Qt 5 build: a restart (one `stop()` of a running child, inside `start`),
then the timer of the first child fires twice. -/
def firedTwiceQt5 : World :=
  runOr qt5Build (QtSlaveLauncher.QtSlaveLauncher "/usr/bin/slave")
    [.start 3 ["-a"], .osLaunched 0, .processEvents 0, .start 3 ["-b"],
     .timeout 0 0, .timeout 0 0]

/-- The events of `stop()` on a running child `P`, a new `start`, and then the
timer armed for `P` firing while `P` still runs. -/
def stopStartFire : List Event :=
  [.start 3 ["-a"], .osLaunched 0, .processEvents 0, .stop,
   .start 3 ["-b"], .osLaunched 1, .processEvents 1, .timeout 0 0]

/-- The events of `stop()` on a running child `P` and then the timer armed
for `P` firing while `P` still runs. -/
def stopFire : List Event :=
  [.start 3 ["-a"], .osLaunched 0, .processEvents 0, .stop, .timeout 0 0]

/-- The events of `stop()` on a running child, the child exiting on its own,
and the timer firing before the event loop has delivered the exit. -/
def exitThenFire : List Event :=
  [.start 3 ["-a"], .osLaunched 0, .processEvents 0, .stop, .osExited 0, .timeout 0 0]

/-- The events of a restart while the first child runs, the first child
exiting on its own, and its timer firing before the event loop has delivered
the exit. -/
def restartExitThenFire : List Event :=
  [.start 3 ["-a"], .osLaunched 0, .processEvents 0,
   .start 3 ["-b"], .osLaunched 1, .processEvents 1, .osExited 0, .timeout 0 0]

/-- The events of `start`, `stop()` while the child is still `Starting`, the
launch failing, and the event loop delivering the failure. -/
def stopThenLaunchFails : List Event :=
  [.start 3 ["-a"], .stop, .osLaunchFailed 0, .processEvents 0]

/-- The world after `stopThenLaunchFails` in a Qt 4 build. -/
def launchFailedAfterStop : World :=
  runOr qt4Build (QtSlaveLauncher.QtSlaveLauncher "/usr/bin/slave") stopThenLaunchFails

/-! ## Heap lemmas -/

theorem modifyAt_length (f : QProcess → QProcess) (l : List QProcess) (h : Handle) :
    (modifyAt f l h).length = l.length := by
  induction l generalizing h with
  | nil => rfl
  | cons p ps ih => cases h <;> simp [modifyAt, ih]

theorem getElem?_modifyAt (f : QProcess → QProcess) (l : List QProcess) (h k : Handle) :
    (modifyAt f l h)[k]? = if k = h then (l[k]?).map f else l[k]? := by
  induction l generalizing h k with
  | nil => simp [modifyAt]
  | cons p ps ih =>
    cases h with
    | zero =>
      cases k with
      | zero => simp [modifyAt]
      | succ k => simp [modifyAt]
    | succ h =>
      cases k with
      | zero => simp [modifyAt]
      | succ k => simp [modifyAt, ih]

@[simp] theorem update_m_process (w : World) (h : Handle) (f : QProcess → QProcess) :
    (w.update h f).m_process = w.m_process := rfl

@[simp] theorem update_log (w : World) (h : Handle) (f : QProcess → QProcess) :
    (w.update h f).log = w.log := rfl

@[simp] theorem update_path (w : World) (h : Handle) (f : QProcess → QProcess) :
    (w.update h f).applicationFilePath = w.applicationFilePath := rfl

@[simp] theorem update_length (w : World) (h : Handle) (f : QProcess → QProcess) :
    (w.update h f).heap.length = w.heap.length := by
  simp [World.update, modifyAt_length]

theorem deref_update (w : World) (h k : Handle) (f : QProcess → QProcess) :
    (w.update h f).deref k =
      if k = h ∧ h < w.heap.length then f (w.deref k) else w.deref k := by
  simp only [World.deref, World.update, getElem?_modifyAt]
  by_cases hk : k = h
  · subst hk
    by_cases hl : k < w.heap.length
    · simp [hl]
    · simp [hl, List.getElem?_eq_none (Nat.le_of_not_lt hl)]
  · simp [hk]

theorem deref_update_same (w : World) (h : Handle) (f : QProcess → QProcess)
    (hh : h < w.heap.length) : (w.update h f).deref h = f (w.deref h) := by
  simp [deref_update, hh]

theorem deref_update_ne (w : World) (h k : Handle) (f : QProcess → QProcess)
    (hk : k ≠ h) : (w.update h f).deref k = w.deref k := by
  simp [deref_update, hk]

theorem deref_of_length_le (w : World) (h : Handle) (hh : w.heap.length ≤ h) :
    w.deref h = QProcess.destroyed := by
  simp [World.deref, List.getElem?_eq_none hh]

/-! ## Preservation of the invariant -/

theorem shape_terminate {b : Build} {m : Option Handle} {h : Handle} {p : QProcess}
    (hs : Shape b m h p) : Shape b m h p.terminate :=
  ⟨hs.tracked, hs.untracked, hs.coh, hs.dead⟩

theorem shape_kill {b : Build} {m : Option Handle} {h : Handle} {p : QProcess}
    (hs : Shape b m h p) : Shape b m h p.kill :=
  ⟨hs.tracked, hs.untracked, hs.coh, hs.dead⟩

/-- A change of the OS status alone. -/
theorem shape_os {b : Build} {m : Option Handle} {h : Handle} {p : QProcess}
    (hs : Shape b m h p) (o : OsStatus) (hc : coherent p.state o = true)
    (hl : p.state = .NotRunning → p.os = .failed → o = .failed) :
    Shape b m h { p with os := o } := by
  refine ⟨hs.tracked, fun hm => ?_, hc, hs.dead⟩
  rcases hs.untracked hm with h1 | h1
  · exact Or.inl h1
  · exact Or.inr ⟨h1.1, h1.2.1, h1.2.2.1, fun hst => hl hst (h1.2.2.2 hst)⟩

/-- A change of the cached state alone. -/
theorem shape_state {b : Build} {m : Option Handle} {h : Handle} {p : QProcess}
    (hs : Shape b m h p) (s : ProcessState) (hc : coherent s p.os = true)
    (hd : p.deleted = true → s = .NotRunning)
    (hl : s = .NotRunning → p.finishedDeleteLater = 1 → p.os = .failed) :
    Shape b m h { p with state := s } := by
  refine ⟨hs.tracked, fun hm => ?_, hc, hd⟩
  rcases hs.untracked hm with h1 | h1
  · exact Or.inl h1
  · exact Or.inr ⟨h1.1, h1.2.1, h1.2.2.1, fun hst => hl hst h1.2.2.1⟩

theorem shape_osLaunched {b : Build} {m : Option Handle} {h : Handle} {p : QProcess}
    (hs : Shape b m h p) : Shape b m h p.osLaunched := by
  unfold QProcess.osLaunched
  split
  · next ho =>
    have hc := hs.coh
    rw [ho] at hc
    refine shape_os hs _ ?_ (fun _ hf => ?_)
    · cases hst : p.state <;> simp_all [coherent]
    · rw [ho] at hf; cases hf
  · exact hs

theorem shape_osLaunchFailed {b : Build} {m : Option Handle} {h : Handle} {p : QProcess}
    (hs : Shape b m h p) : Shape b m h p.osLaunchFailed := by
  unfold QProcess.osLaunchFailed
  split
  · next ho =>
    have hc := hs.coh
    rw [ho] at hc
    refine shape_os hs _ ?_ (fun _ _ => rfl)
    cases hst : p.state <;> simp_all [coherent]
  · exact hs

theorem shape_osExited {b : Build} {m : Option Handle} {h : Handle} {p : QProcess}
    (hs : Shape b m h p) : Shape b m h p.osExited := by
  unfold QProcess.osExited
  split
  · next ho =>
    have hc := hs.coh
    rw [ho] at hc
    refine shape_os hs _ ?_ (fun _ hf => ?_)
    · cases hst : p.state <;> simp_all [coherent]
    · rw [ho] at hf; cases hf
  · exact hs

/-- Emitting `finished` on an object that just became `NotRunning`. -/
theorem shape_finished {b : Build} {m : Option Handle} {h : Handle} {p : QProcess}
    (hs : Shape b m h p) (ho : p.os = .exited) :
    Shape b m h (QProcess.emitFinished { p with state := .NotRunning }) := by
  unfold QProcess.emitFinished
  by_cases hz : p.finishedDeleteLater = 0
  · rw [if_pos hz]
    exact shape_state hs _ (by simp [ho, coherent]) (fun _ => rfl)
      (fun _ h1 => by rw [hz] at h1; cases h1)
  · rw [if_neg hz]
    refine ⟨?_, ?_, by simp [QProcess.destroy, ho, coherent], fun _ => rfl⟩
    · intro hm
      exact absurd (hs.tracked hm).2.2 hz
    · intro _
      exact Or.inl ⟨rfl, rfl, rfl⟩

theorem shape_poll {b : Build} {m : Option Handle} {h : Handle} {p : QProcess}
    (hs : Shape b m h p) : Shape b m h p.poll := by
  unfold QProcess.poll
  by_cases hdel : p.deleted = true
  · rw [if_pos hdel]
    exact hs
  · rw [if_neg hdel]
    split
    · next hst ho =>
      exact shape_state hs _ (by simp [ho, coherent]) (fun hd => absurd hd hdel)
        (fun hn => by cases hn)
    · next hst ho =>
      exact shape_state hs _ (by simp [ho, coherent]) (fun _ => rfl) (fun _ _ => ho)
    · next hst ho => exact shape_finished hs ho
    · next hst ho => exact shape_finished hs ho
    · exact hs

theorem inv_update {b : Build} {w : World} (k : Handle) (f : QProcess → QProcess)
    (hf : ∀ h p, Shape b w.m_process h p → Shape b w.m_process h (f p))
    (hw : Inv b w) : Inv b (w.update k f) := by
  refine ⟨fun h hm => by simpa using hw.valid h hm, fun h hh => ?_⟩
  have hh2 : h < w.heap.length := by simpa using hh
  rw [deref_update, update_m_process]
  split
  · exact hf h _ (hw.shape h hh2)
  · exact hw.shape h hh2

theorem inv_log {b : Build} {w : World} (l : List LogEntry) (hw : Inv b w) :
    Inv b { w with log := l } :=
  ⟨hw.valid, hw.shape⟩

open QtSlaveLauncher

theorem stop_m_process (b : Build) (w : World) : (stop b w).m_process = none := by
  unfold stop
  split
  · split <;> rfl
  · next hm => exact hm

theorem stop_length (b : Build) (w : World) : (stop b w).heap.length = w.heap.length := by
  unfold stop
  split
  · split <;> simp [World.update, modifyAt_length]
  · rfl

theorem stop_path (b : Build) (w : World) :
    (stop b w).applicationFilePath = w.applicationFilePath := by
  unfold stop
  split
  · split <;> rfl
  · rfl

/-- An object that was not the tracked one keeps its shape when `m_process`
becomes `NULL`. -/
theorem shape_untrack {b : Build} {m : Option Handle} {h : Handle} {p : QProcess}
    (hs : Shape b m h p) (hm : m ≠ some h) : Shape b none h p :=
  ⟨fun hn => (by cases hn), fun _ => hs.untracked hm, hs.coh, hs.dead⟩

/-- An object keeps its shape when `m_process` is set to another object. -/
theorem shape_retrack {b : Build} {h k : Handle} {p : QProcess}
    (hs : Shape b none h p) (hk : k ≠ h) : Shape b (some k) h p :=
  ⟨fun hn => (by cases hn; exact absurd rfl hk), fun _ => hs.untracked (by simp),
    hs.coh, hs.dead⟩

theorem inv_stop {b : Build} {w : World} (hw : Inv b w) : Inv b (stop b w) := by
  refine ⟨fun h hm => (by rw [stop_m_process] at hm; cases hm), fun k hk => ?_⟩
  rw [stop_length] at hk
  rw [stop_m_process]
  have hk0 := hw.shape k hk
  unfold stop
  cases hm : w.m_process with
  | none =>
    rw [hm] at hk0
    exact hk0
  | some h0 =>
    rw [hm] at hk0
    have hh0 : h0 < w.heap.length := hw.valid h0 hm
    by_cases hkh : k = h0
    · subst hkh
      have ht := hk0.tracked rfl
      by_cases hst : (w.deref k).state = .NotRunning
      · simp only [hst, ne_eq, not_true_eq_false, if_false]
        show Shape b none k ((w.update k QProcess.destroy).deref k)
        rw [deref_update_same _ _ _ hh0]
        exact ⟨fun hn => (by cases hn), fun _ => Or.inl ⟨rfl, rfl, rfl⟩, hk0.coh, fun _ => hst⟩
      · simp only [hst, ne_eq, not_false_eq_true, if_true]
        show Shape b none k ((w.update k _).deref k)
        rw [deref_update_same _ _ _ hh0]
        refine ⟨fun hn => (by cases hn),
          fun _ => Or.inr ⟨ht.1, ?_, ?_, fun hn => absurd hn hst⟩, hk0.coh, hk0.dead⟩
        · show (w.deref k).timers ++ [killTimer b k] = [killTimer b k]
          rw [ht.2.1]; rfl
        · show (w.deref k).finishedDeleteLater + 1 = 1
          rw [ht.2.2]
    · have hs := shape_untrack hk0 (by simpa using fun h => hkh h.symm)
      by_cases hst : (w.deref h0).state = .NotRunning
      · simp only [hst, ne_eq, not_true_eq_false, if_false]
        show Shape b none k ((w.update h0 QProcess.destroy).deref k)
        rw [deref_update_ne _ _ _ _ hkh]
        exact hs
      · simp only [hst, ne_eq, not_false_eq_true, if_true]
        show Shape b none k ((w.update h0 _).deref k)
        rw [deref_update_ne _ _ _ _ hkh]
        exact hs

/-- The object `start()` creates and stores in `m_process`. -/
theorem start_eq (b : Build) (logLevel : Int) (arguments : List String) (w : World) :
    ∃ p l, start b logLevel arguments w =
        { stop b w with m_process := some w.heap.length, heap := (stop b w).heap ++ [p], log := l } ∧
      p.deleted = false ∧ p.timers = [] ∧ p.finishedDeleteLater = 0 ∧
      coherent p.state p.os = true := by
  unfold start
  simp only [stop_length]
  by_cases hd : b.DEBUG = true
  · simp only [hd, if_true]
    refine ⟨_, _, rfl, ?_⟩
    split <;> simp [QProcess.new, QProcess.setProcessChannelMode,
      QProcess.setStandardOutputFile, QProcess.setStandardErrorFile, coherent]
  · simp only [hd, if_false]
    refine ⟨_, _, rfl, ?_⟩
    split <;> simp [QProcess.new, QProcess.setProcessChannelMode, QProcess.start,
      QProcess.setStandardOutputFile, QProcess.setStandardErrorFile, coherent]

theorem inv_start {b : Build} {w : World} (logLevel : Int) (arguments : List String)
    (hw : Inv b w) : Inv b (start b logLevel arguments w) := by
  obtain ⟨p, l, he, hp1, hp2, hp3, hp4⟩ := start_eq b logLevel arguments w
  rw [he]
  have hs := inv_stop hw
  have hlen := stop_length b w
  refine ⟨fun h hm => ?_, fun k hk => ?_⟩
  · simp only [Option.some.injEq] at hm
    subst hm
    simp [hlen]
  · simp only [List.length_append, List.length_singleton, hlen] at hk
    show Shape b (some w.heap.length) k ((((stop b w).heap ++ [p])[k]?).getD QProcess.destroyed)
    by_cases hkl : k < w.heap.length
    · rw [List.getElem?_append_left (by rw [hlen]; exact hkl)]
      have h1 := hs.shape k (by rw [hlen]; exact hkl)
      rw [stop_m_process] at h1
      exact shape_retrack h1 (Nat.ne_of_gt hkl)
    · have hk2 : k = w.heap.length := by omega
      subst hk2
      rw [List.getElem?_append_right (by rw [hlen])]
      simp only [hlen, Nat.sub_self, List.getElem?_cons_zero, Option.getD_some]
      exact ⟨fun _ => ⟨hp1, hp2, hp3⟩, fun hn => absurd rfl hn, hp4,
        fun hd => by rw [hp1] at hd; cases hd⟩

theorem isRunning_snd (w : World) :
    (isRunning w).2 = match w.m_process with
      | some h => w.update h QProcess.poll
      | none => w := by
  unfold isRunning
  split <;> rfl

theorem inv_isRunning {b : Build} {w : World} (hw : Inv b w) : Inv b (isRunning w).2 := by
  rw [isRunning_snd]
  split
  · exact inv_update _ _ (fun _ _ hs => shape_poll hs) hw
  · exact hw

theorem inv_invoke {b : Build} {w w1 : World} (s : Slot) (hw : Inv b w)
    (h : s.invoke w = .ok w1) : Inv b w1 := by
  cases s with
  | lambda =>
    simp only [Slot.invoke] at h
    split at h
    · injection h with h
      subst h
      exact inv_update _ _ (fun _ _ hs => shape_kill hs)
        (inv_update _ _ (fun _ _ hs => shape_terminate hs) (inv_log _ hw))
    · cases h
  | terminate r =>
    simp only [Slot.invoke] at h
    injection h with h
    subst h
    exact inv_update _ _ (fun _ _ hs => shape_terminate hs) hw
  | kill r =>
    simp only [Slot.invoke] at h
    injection h with h
    subst h
    exact inv_update _ _ (fun _ _ hs => shape_kill hs) hw

theorem inv_invokeAll {b : Build} (ss : List Slot) {w w1 : World} (hw : Inv b w)
    (h : invokeAll ss w = .ok w1) : Inv b w1 := by
  induction ss generalizing w with
  | nil =>
    simp only [invokeAll] at h
    injection h with h
    subst h
    exact hw
  | cons s ss ih =>
    simp only [invokeAll] at h
    split at h
    · next w2 h2 => exact ih (inv_invoke s hw h2) h
    · cases h

/-- In a world that satisfies the invariant every timer is the `killTimer` of
its process object. -/
theorem timer_of_inv {b : Build} {w : World} (hw : Inv b w) {h i : Nat} {t : QTimer}
    (ht : (w.deref h).timers[i]? = some t) :
    t = killTimer b h ∧ i = 0 ∧ h < w.heap.length ∧ w.m_process ≠ some h ∧
      (w.deref h).deleted = false ∧ (w.deref h).timers = [killTimer b h] ∧
      (w.deref h).finishedDeleteLater = 1 ∧
      ((w.deref h).state = .NotRunning → (w.deref h).os = .failed) := by
  by_cases hh : h < w.heap.length
  · have hs := hw.shape h hh
    by_cases hm : w.m_process = some h
    · rw [(hs.tracked hm).2.1] at ht
      simp at ht
    · rcases hs.untracked hm with h1 | h1
      · rw [h1.2.1] at ht
        simp at ht
      · rw [h1.2.1] at ht
        cases i with
        | zero =>
          simp only [List.getElem?_cons_zero, Option.some.injEq] at ht
          exact ⟨ht.symm, rfl, hh, hm, h1⟩
        | succ i => simp at ht
  · rw [deref_of_length_le w h (Nat.le_of_not_lt hh)] at ht
    simp [QProcess.destroyed, QProcess.new] at ht

theorem killTimer_singleShot (b : Build) (h : Handle) : (killTimer b h).singleShot = false := by
  unfold killTimer
  split <;> rfl

theorem killTimer_active (b : Build) (h : Handle) : (killTimer b h).active = true := by
  unfold killTimer
  split <;> rfl

theorem killTimer_interval (b : Build) (h : Handle) : (killTimer b h).interval = 5000 := by
  unfold killTimer
  split <;> rfl

/-- A firing timer of a world that satisfies the invariant runs its slots in
the unchanged world. -/
theorem timeout_of_inv {b : Build} {w : World} (hw : Inv b w) (h i : Nat) :
    timeout w h i = match (w.deref h).timers[i]? with
      | some _ => invokeAll (killTimer b h).timeoutSlots w
      | none => .ok w := by
  unfold timeout
  cases ht : (w.deref h).timers[i]? with
  | none => rfl
  | some t =>
    obtain ⟨he, _⟩ := timer_of_inv hw ht
    subst he
    simp [killTimer_active, killTimer_singleShot]

theorem inv_timeout {b : Build} {w w1 : World} (h i : Nat) (hw : Inv b w)
    (hr : timeout w h i = .ok w1) : Inv b w1 := by
  rw [timeout_of_inv hw] at hr
  split at hr
  · exact inv_invokeAll _ hw hr
  · injection hr with hr
    subst hr
    exact hw

theorem inv_step {b : Build} {w w1 : World} (e : Event) (hw : Inv b w)
    (hr : step b w e = .ok w1) : Inv b w1 := by
  cases e with
  | timeout h i => exact inv_timeout h i hw hr
  | start logLevel arguments =>
    injection hr with hr; subst hr; exact inv_start _ _ hw
  | stop => injection hr with hr; subst hr; exact inv_stop hw
  | isRunning => injection hr with hr; subst hr; exact inv_isRunning hw
  | osLaunched h =>
    injection hr with hr; subst hr
    exact inv_update _ _ (fun _ _ hs => shape_osLaunched hs) hw
  | osLaunchFailed h =>
    injection hr with hr; subst hr
    exact inv_update _ _ (fun _ _ hs => shape_osLaunchFailed hs) hw
  | osExited h =>
    injection hr with hr; subst hr
    exact inv_update _ _ (fun _ _ hs => shape_osExited hs) hw
  | processEvents h =>
    injection hr with hr; subst hr
    exact inv_update _ _ (fun _ _ hs => shape_poll hs) hw

theorem inv_run {b : Build} (es : List Event) {w w1 : World} (hw : Inv b w)
    (hr : run b w es = .ok w1) : Inv b w1 := by
  induction es generalizing w with
  | nil =>
    simp only [run] at hr
    injection hr with hr
    subst hr
    exact hw
  | cons e es ih =>
    simp only [run] at hr
    split at hr
    · next w2 h2 => exact ih (inv_step e hw h2) hr
    · cases hr

theorem inv_init (b : Build) (path : String) : Inv b (QtSlaveLauncher path) :=
  ⟨fun h hm => (by cases hm), fun h hh => (by simp [QtSlaveLauncher] at hh)⟩

theorem inv_of_reachable {b : Build} {w : World} (hw : Reachable b w) : Inv b w := by
  obtain ⟨path, es, hr⟩ := hw
  exact inv_run es (inv_init b path) hr

/-! ## stop() -/

theorem stop_of_untracked (b : Build) (w : World) (h : w.m_process = none) : stop b w = w := by
  unfold stop
  rw [h]

theorem isRunning_of_untracked (w : World) (h : w.m_process = none) :
    isRunning w = (false, w) := by
  unfold isRunning
  rw [h]

/-- C3: when `stop()` returns, `m_process` is `NULL`, in the branch where the
tracked process was reported running (the timer branch) as well as in the
branch where it was not (the `delete` branch), and `isRunning()` called right
after returns false. -/
theorem stop_clears_tracked (b : Build) (w : World) :
    (stop b w).m_process = none ∧
    (∀ h, w.m_process = some h → (w.deref h).state ≠ .NotRunning →
      (stop b w).m_process = none) ∧
    (∀ h, w.m_process = some h → (w.deref h).state = .NotRunning →
      (stop b w).m_process = none) ∧
    (isRunning (stop b w)).1 = false := by
  refine ⟨stop_m_process b w, fun _ _ _ => stop_m_process b w,
    fun _ _ _ => stop_m_process b w, ?_⟩
  rw [isRunning_of_untracked _ (stop_m_process b w)]

theorem stop_clears_tracked_witness :
    (oneRunning qt5Build).m_process = some 0 ∧
    ((oneRunning qt5Build).deref 0).state ≠ .NotRunning ∧
    (stop qt5Build (oneRunning qt5Build)).m_process = none :=
  ⟨rfl, by decide,
    (stop_clears_tracked qt5Build (oneRunning qt5Build)).2.1 0 rfl (by decide)⟩

/-- C7: with no tracked process `stop()` changes nothing at all in the world
(no timer, no connection, no destruction, no request, no log line), and
`stop()` twice is the same as `stop()` once. -/
theorem stop_untracked_noop (b : Build) (w : World) :
    (w.m_process = none → stop b w = w) ∧ stop b (stop b w) = stop b w :=
  ⟨stop_of_untracked b w, stop_of_untracked b _ (stop_m_process b w)⟩

theorem stop_untracked_noop_witness :
    (QtSlaveLauncher "/usr/bin/slave").m_process = none ∧
    stop qt5Build (QtSlaveLauncher "/usr/bin/slave") = QtSlaveLauncher "/usr/bin/slave" :=
  ⟨rfl, (stop_untracked_noop qt5Build (QtSlaveLauncher "/usr/bin/slave")).1 rfl⟩

/-! ## isRunning() -/

theorem poll_state (p : QProcess) (hd : p.deleted = false)
    (hc : coherent p.state p.os = true) :
    p.poll.state ≠ .NotRunning ↔ (p.os = .launching ∨ p.os = .alive) := by
  obtain ⟨st, os, _, _, _, _, _, fdl, _, del⟩ := p
  simp only at hd hc
  subst hd
  cases st <;> cases os <;>
    simp [QProcess.poll, QProcess.emitFinished, QProcess.destroy, coherent] at hc ⊢ <;>
    split <;> simp

theorem oneRunning_reachable (b : Build) : Reachable b (oneRunning b) := by
  refine ⟨"/usr/bin/slave", [.start 3 ["-a"], .osLaunched 0, .processEvents 0], ?_⟩
  simp [oneRunning, runOr, run, step]

/-- C8: `isRunning()` returns false when nothing is tracked, so also on a
freshly constructed launcher; otherwise it polls the tracked process with
`waitForFinished( 0 )` and returns true exactly when the state after the poll
is not `NotRunning`, which in a reachable world is exactly when the child is
being launched or alive at the OS level; `m_process` is left as it was. -/
theorem isRunning_spec (b : Build) (w : World) :
    (w.m_process = none → isRunning w = (false, w)) ∧
    (∀ path, (isRunning (QtSlaveLauncher path)).1 = false) ∧
    (∀ h, w.m_process = some h →
      (isRunning w).2 = w.update h QProcess.poll ∧
      ((isRunning w).1 = true ↔ ((w.update h QProcess.poll).deref h).state ≠ .NotRunning)) ∧
    (Reachable b w → ∀ h, w.m_process = some h →
      ((isRunning w).1 = true ↔ ((w.deref h).os = .launching ∨ (w.deref h).os = .alive))) ∧
    (isRunning w).2.m_process = w.m_process := by
  have key : ∀ h, w.m_process = some h →
      (isRunning w).2 = w.update h QProcess.poll ∧
      ((isRunning w).1 = true ↔ ((w.update h QProcess.poll).deref h).state ≠ .NotRunning) := by
    intro h hm
    unfold isRunning
    rw [hm]
    simp
  refine ⟨isRunning_of_untracked w, fun path => ?_, key, fun hr h hm => ?_, ?_⟩
  · rw [isRunning_of_untracked _ rfl]
  · have hi := inv_of_reachable hr
    have hh := hi.valid h hm
    have hs := hi.shape h hh
    rw [hm] at hs
    rw [(key h hm).2, deref_update_same _ _ _ hh]
    exact poll_state _ (hs.tracked rfl).1 hs.coh
  · rw [isRunning_snd]
    split <;> rfl

theorem isRunning_spec_witness :
    Reachable qt5Build (oneRunning qt5Build) ∧ (oneRunning qt5Build).m_process = some 0 ∧
    (isRunning (oneRunning qt5Build)).1 = true :=
  ⟨oneRunning_reachable qt5Build, rfl,
    ((isRunning_spec qt5Build (oneRunning qt5Build)).2.2.2.1
      (oneRunning_reachable qt5Build) 0 rfl).2 (Or.inr rfl)⟩

/-! ## start() -/

theorem stop_log (b : Build) (w : World) : (stop b w).log = w.log := by
  unfold stop
  split
  · split <;> rfl
  · rfl

/-- What `stop()` does to each heap object. -/
theorem stop_deref (b : Build) (w : World) (k : Handle) :
    (stop b w).deref k =
      if w.m_process = some k ∧ k < w.heap.length then
        if (w.deref k).state ≠ .NotRunning then
          { w.deref k with finishedDeleteLater := (w.deref k).finishedDeleteLater + 1,
                           timers := (w.deref k).timers ++ [killTimer b k] }
        else (w.deref k).destroy
      else w.deref k := by
  unfold stop
  cases hm : w.m_process with
  | none => simp
  | some h0 =>
    simp only [Option.some.injEq]
    by_cases hst : (w.deref h0).state = .NotRunning
    · simp only [hst, ne_eq, not_true_eq_false, if_false]
      show (w.update h0 QProcess.destroy).deref k = _
      rw [deref_update]
      by_cases hk : k = h0
      · subst hk
        simp [hst]
      · have hk2 : ¬ h0 = k := fun h => hk h.symm
        simp [hk, hk2]
    · simp only [hst, ne_eq, not_false_eq_true, if_true]
      show (w.update h0 _).deref k = _
      rw [deref_update]
      by_cases hk : k = h0
      · subst hk
        simp [hst]
      · have hk2 : ¬ h0 = k := fun h => hk h.symm
        simp [hk, hk2]

/-- The world `start()` returns, written out. -/
theorem start_unfold (b : Build) (logLevel : Int) (arguments : List String) (w : World) :
    start b logLevel arguments w =
      { applicationFilePath := w.applicationFilePath,
        m_process := some w.heap.length,
        heap := (stop b w).heap ++
          [if b.DEBUG then
            (if logLevel ≥ b.LogLevelDebug then
              QProcess.new.setProcessChannelMode .ForwardedChannels
            else
              (QProcess.new.setStandardOutputFile (DEV_NULL b)).setStandardErrorFile (DEV_NULL b))
          else
            (if logLevel ≥ b.LogLevelDebug then
              QProcess.new.setProcessChannelMode .ForwardedChannels
            else
              (QProcess.new.setStandardOutputFile (DEV_NULL b)).setStandardErrorFile
                (DEV_NULL b)).start w.applicationFilePath arguments],
        log := if b.DEBUG then w.log ++ [LogEntry.launchLine w.applicationFilePath arguments]
               else w.log } := by
  unfold start
  simp only [stop_length, stop_path, stop_log]
  by_cases hd : b.DEBUG = true <;> simp [hd]

theorem start_m_process (b : Build) (logLevel : Int) (arguments : List String) (w : World) :
    (start b logLevel arguments w).m_process = some w.heap.length := by
  rw [start_unfold]

theorem start_length (b : Build) (logLevel : Int) (arguments : List String) (w : World) :
    (start b logLevel arguments w).heap.length = w.heap.length + 1 := by
  rw [start_unfold]
  simp [stop_length]

theorem start_deref_old (b : Build) (logLevel : Int) (arguments : List String) (w : World)
    (h : Handle) (hh : h < w.heap.length) :
    (start b logLevel arguments w).deref h = (stop b w).deref h := by
  have hl : h < (stop b w).heap.length := by rw [stop_length]; exact hh
  rw [start_unfold]
  simp [World.deref, List.getElem?_append_left hl]

/-- The object that `start()` leaves in `m_process`. -/
theorem start_deref_new (b : Build) (logLevel : Int) (arguments : List String) (w : World) :
    (start b logLevel arguments w).deref w.heap.length =
      if b.DEBUG then
        (if logLevel ≥ b.LogLevelDebug then
          QProcess.new.setProcessChannelMode .ForwardedChannels
        else
          (QProcess.new.setStandardOutputFile (DEV_NULL b)).setStandardErrorFile (DEV_NULL b))
      else
        (if logLevel ≥ b.LogLevelDebug then
          QProcess.new.setProcessChannelMode .ForwardedChannels
        else
          (QProcess.new.setStandardOutputFile (DEV_NULL b)).setStandardErrorFile
            (DEV_NULL b)).start w.applicationFilePath arguments := by
  have hl := stop_length b w
  rw [start_unfold]
  simp only [World.deref, ← hl]
  simp

/-! ## Output routing never changes after creation -/

/-- A member call that leaves a projection of the object alone leaves it
alone for every heap object. -/
theorem update_keeps {α : Type} (g : QProcess → α) (w : World) (k h : Handle)
    (f : QProcess → QProcess) (hf : ∀ p, g (f p) = g p) :
    g ((w.update k f).deref h) = g (w.deref h) := by
  rw [deref_update]
  split
  · exact hf _
  · rfl

/-- A slot changes nothing that `terminate()` and `kill()` leave alone. -/
theorem invoke_keeps {α : Type} (g : QProcess → α) (hg1 : ∀ p, g p.terminate = g p)
    (hg2 : ∀ p, g p.kill = g p) {w w1 : World} (s : Slot) (hr : s.invoke w = .ok w1)
    (h : Handle) :
    g (w1.deref h) = g (w.deref h) ∧ w1.heap.length = w.heap.length := by
  cases s with
  | lambda =>
    simp only [Slot.invoke] at hr
    split at hr
    · injection hr with hr
      subst hr
      refine ⟨?_, by simp⟩
      rw [update_keeps g _ _ _ QProcess.kill hg2, update_keeps g _ _ _ QProcess.terminate hg1]
      rfl
    · cases hr
  | terminate r =>
    simp only [Slot.invoke] at hr
    injection hr with hr
    subst hr
    exact ⟨update_keeps g _ _ _ _ hg1, by simp⟩
  | kill r =>
    simp only [Slot.invoke] at hr
    injection hr with hr
    subst hr
    exact ⟨update_keeps g _ _ _ _ hg2, by simp⟩

theorem invokeAll_keeps {α : Type} (g : QProcess → α) (hg1 : ∀ p, g p.terminate = g p)
    (hg2 : ∀ p, g p.kill = g p) (ss : List Slot) {w w1 : World}
    (hr : invokeAll ss w = .ok w1) (h : Handle) :
    g (w1.deref h) = g (w.deref h) ∧ w1.heap.length = w.heap.length := by
  induction ss generalizing w with
  | nil =>
    simp only [invokeAll] at hr
    injection hr with hr
    subst hr
    exact ⟨rfl, rfl⟩
  | cons s ss ih =>
    simp only [invokeAll] at hr
    split at hr
    · next w2 h2 =>
      have h3 := invoke_keeps g hg1 hg2 s h2 h
      have h4 := ih hr
      exact ⟨h4.1.trans h3.1, h4.2.trans h3.2⟩
    · cases hr

theorem routing_update (w : World) (k h : Handle) (f : QProcess → QProcess)
    (hf : ∀ p, (f p).outputRouting = p.outputRouting) :
    ((w.update k f).deref h).outputRouting = (w.deref h).outputRouting :=
  update_keeps QProcess.outputRouting w k h f hf

theorem routing_poll (p : QProcess) : p.poll.outputRouting = p.outputRouting := by
  unfold QProcess.poll QProcess.emitFinished
  split
  · rfl
  · split <;> (try split) <;> rfl

theorem routing_stop (b : Build) (w : World) (h : Handle) :
    ((stop b w).deref h).outputRouting = (w.deref h).outputRouting := by
  rw [stop_deref]
  split
  · split <;> rfl
  · rfl

theorem routing_invokeAll (ss : List Slot) {w w1 : World} (hr : invokeAll ss w = .ok w1)
    (h : Handle) :
    (w1.deref h).outputRouting = (w.deref h).outputRouting ∧
      w1.heap.length = w.heap.length :=
  invokeAll_keeps QProcess.outputRouting (fun _ => rfl) (fun _ => rfl) ss hr h

theorem routing_timeout {w w1 : World} (k i : Nat) (hr : timeout w k i = .ok w1)
    (h : Handle) :
    (w1.deref h).outputRouting = (w.deref h).outputRouting ∧
      w1.heap.length = w.heap.length := by
  unfold timeout at hr
  split at hr
  · next t ht =>
    split at hr
    · have h3 := routing_invokeAll _ hr h
      refine ⟨h3.1.trans ?_, h3.2.trans ?_⟩
      · split
        · exact routing_update _ _ _ _ (fun _ => rfl)
        · rfl
      · split
        · simp
        · rfl
    · injection hr with hr
      subst hr
      exact ⟨rfl, rfl⟩
  · injection hr with hr
    subst hr
    exact ⟨rfl, rfl⟩

theorem routing_step {b : Build} {w w1 : World} (e : Event) (hr : step b w e = .ok w1)
    (h : Handle) (hh : h < w.heap.length) :
    (w1.deref h).outputRouting = (w.deref h).outputRouting ∧
      w.heap.length ≤ w1.heap.length := by
  cases e with
  | timeout k i =>
    have h3 := routing_timeout k i hr h
    exact ⟨h3.1, Nat.le_of_eq h3.2.symm⟩
  | start logLevel arguments =>
    injection hr with hr; subst hr
    rw [start_deref_old _ _ _ _ _ hh, start_length]
    exact ⟨routing_stop b w h, Nat.le_succ _⟩
  | stop =>
    injection hr with hr; subst hr
    exact ⟨routing_stop b w h, Nat.le_of_eq (stop_length b w).symm⟩
  | isRunning =>
    injection hr with hr; subst hr
    rw [isRunning_snd]
    split
    · exact ⟨routing_update _ _ _ _ routing_poll, by simp⟩
    · exact ⟨rfl, Nat.le_refl _⟩
  | osLaunched k =>
    injection hr with hr; subst hr
    refine ⟨routing_update _ _ _ _ (fun p => ?_), by simp⟩
    unfold QProcess.osLaunched
    split <;> rfl
  | osLaunchFailed k =>
    injection hr with hr; subst hr
    refine ⟨routing_update _ _ _ _ (fun p => ?_), by simp⟩
    unfold QProcess.osLaunchFailed
    split <;> rfl
  | osExited k =>
    injection hr with hr; subst hr
    refine ⟨routing_update _ _ _ _ (fun p => ?_), by simp⟩
    unfold QProcess.osExited
    split <;> rfl
  | processEvents k =>
    injection hr with hr; subst hr
    exact ⟨routing_update _ _ _ _ routing_poll, by simp⟩

theorem routing_run {b : Build} (es : List Event) {w w1 : World} (hr : run b w es = .ok w1)
    (h : Handle) (hh : h < w.heap.length) :
    (w1.deref h).outputRouting = (w.deref h).outputRouting := by
  induction es generalizing w with
  | nil =>
    simp only [run] at hr
    injection hr with hr
    subst hr
    rfl
  | cons e es ih =>
    simp only [run] at hr
    split at hr
    · next w2 h2 =>
      have h3 := routing_step e h2 h hh
      exact (ih hr (Nat.lt_of_lt_of_le hh h3.2)).trans h3.1
    · cases hr

/-- C6: the process object created by `start()` has channel mode
`ForwardedChannels` exactly when the log level is at least `LogLevelDebug`
(and then no redirection file); otherwise it keeps the default channel mode
and both standard output and standard error are redirected to `DEV_NULL`,
which is `"/dev/null"` unless `ITALC_BUILD_WIN32` is defined and `"NUL"` when
it is.  The routing is fixed when `start()` returns: no later event changes it. -/
theorem start_output_routing (b : Build) (logLevel : Int) (arguments : List String)
    (w : World) :
    (start b logLevel arguments w).m_process = some w.heap.length ∧
    (((start b logLevel arguments w).deref w.heap.length).channelMode = .ForwardedChannels ↔
      logLevel ≥ b.LogLevelDebug) ∧
    (logLevel ≥ b.LogLevelDebug →
      ((start b logLevel arguments w).deref w.heap.length).outputRouting =
        (.ForwardedChannels, none, none)) ∧
    (¬ logLevel ≥ b.LogLevelDebug →
      ((start b logLevel arguments w).deref w.heap.length).outputRouting =
        (.SeparateChannels, some (DEV_NULL b), some (DEV_NULL b))) ∧
    (b.ITALC_BUILD_WIN32 = false → DEV_NULL b = "/dev/null") ∧
    (b.ITALC_BUILD_WIN32 = true → DEV_NULL b = "NUL") ∧
    (∀ es w1, run b (start b logLevel arguments w) es = .ok w1 →
      (w1.deref w.heap.length).outputRouting =
        ((start b logLevel arguments w).deref w.heap.length).outputRouting) := by
  refine ⟨start_m_process b logLevel arguments w, ?_, ?_, ?_, ?_, ?_, ?_⟩
  · rw [start_deref_new]
    by_cases hd : b.DEBUG = true <;> by_cases hl : logLevel ≥ b.LogLevelDebug <;>
      simp [hd, hl, QProcess.new, QProcess.setProcessChannelMode, QProcess.start,
        QProcess.setStandardOutputFile, QProcess.setStandardErrorFile]
  · intro hl
    rw [start_deref_new]
    by_cases hd : b.DEBUG = true <;>
      simp [hd, hl, QProcess.new, QProcess.setProcessChannelMode, QProcess.start,
        QProcess.outputRouting]
  · intro hl
    rw [start_deref_new]
    by_cases hd : b.DEBUG = true <;>
      simp [hd, hl, QProcess.new, QProcess.start, QProcess.outputRouting,
        QProcess.setStandardOutputFile, QProcess.setStandardErrorFile]
  · intro hw
    simp [DEV_NULL, hw]
  · intro hw
    simp [DEV_NULL, hw]
  · intro es w1 hr
    exact routing_run es hr _ (by rw [start_length]; exact Nat.lt_succ_self _)

theorem start_output_routing_witness :
    ((3 : Int) ≥ qt5Build.LogLevelDebug → False) ∧
    ((start qt5Build 3 ["-a"] (QtSlaveLauncher "/usr/bin/slave")).deref 0).outputRouting =
      (.SeparateChannels, some "/dev/null", some "/dev/null") ∧
    ((start debugBuild 7 ["-a"] (QtSlaveLauncher "/usr/bin/slave")).deref 0).outputRouting =
      (.ForwardedChannels, none, none) :=
  ⟨by decide,
    (start_output_routing qt5Build 3 ["-a"] (QtSlaveLauncher "/usr/bin/slave")).2.2.2.1
      (by decide),
    (start_output_routing debugBuild 7 ["-a"] (QtSlaveLauncher "/usr/bin/slave")).2.2.1
      (by decide)⟩

/-- C9, as stated, fails in a build with `DEBUG` defined: `start()` on a
fresh launcher tracks a new process object for which no launch was attempted
(no program, never handed to the OS, state `NotRunning`); path and arguments
are only written with `qWarning`. -/
theorem debug_start_attempts_no_launch :
    (start debugBuild 3 ["-a"] (QtSlaveLauncher "/usr/bin/slave")).m_process = some 0 ∧
    ((start debugBuild 3 ["-a"] (QtSlaveLauncher "/usr/bin/slave")).deref 0).program = none ∧
    ((start debugBuild 3 ["-a"] (QtSlaveLauncher "/usr/bin/slave")).deref 0).os = .notLaunched ∧
    ((start debugBuild 3 ["-a"] (QtSlaveLauncher "/usr/bin/slave")).deref 0).state = .NotRunning ∧
    (start debugBuild 3 ["-a"] (QtSlaveLauncher "/usr/bin/slave")).log =
      [LogEntry.launchLine "/usr/bin/slave" ["-a"]] := by
  refine ⟨rfl, rfl, rfl, rfl, rfl⟩

/-- C9, amended: `start( arguments )` first performs `stop()` and then leaves
`m_process` pointing to a newly created process object, different from every
object that existed before; the older objects are as `stop()` left them.
Without `DEBUG` a launch is attempted on the new object with
`applicationFilePath()` and exactly the given arguments, and nothing is
logged; with `DEBUG` no launch is attempted and path and arguments are written
with `qWarning`.  `start()` always returns a world, and when the launch fails
the new object stays tracked while `isRunning()` returns false. -/
theorem start_tracks_new (b : Build) (logLevel : Int) (arguments : List String) (w : World) :
    (start b logLevel arguments w).m_process = some w.heap.length ∧
    (start b logLevel arguments w).heap.length = w.heap.length + 1 ∧
    (∀ h, h < w.heap.length →
      (start b logLevel arguments w).m_process ≠ some h ∧
      (start b logLevel arguments w).deref h = (stop b w).deref h) ∧
    ((start b logLevel arguments w).deref w.heap.length).deleted = false ∧
    (b.DEBUG = false →
      ((start b logLevel arguments w).deref w.heap.length).program =
        some (w.applicationFilePath, arguments) ∧
      ((start b logLevel arguments w).deref w.heap.length).state = .Starting ∧
      ((start b logLevel arguments w).deref w.heap.length).os = .launching ∧
      (start b logLevel arguments w).log = w.log ∧
      (isRunning ((start b logLevel arguments w).update w.heap.length
        QProcess.osLaunchFailed)).1 = false ∧
      (isRunning ((start b logLevel arguments w).update w.heap.length
        QProcess.osLaunchFailed)).2.m_process = some w.heap.length) ∧
    (b.DEBUG = true →
      ((start b logLevel arguments w).deref w.heap.length).program = none ∧
      ((start b logLevel arguments w).deref w.heap.length).os = .notLaunched ∧
      (start b logLevel arguments w).log =
        w.log ++ [LogEntry.launchLine w.applicationFilePath arguments]) := by
  have hlen : w.heap.length < (start b logLevel arguments w).heap.length := by
    rw [start_length]; exact Nat.lt_succ_self _
  refine ⟨start_m_process _ _ _ _, start_length _ _ _ _, fun h hh => ⟨?_, ?_⟩, ?_, ?_, ?_⟩
  · rw [start_m_process]
    intro he
    simp only [Option.some.injEq] at he
    omega
  · exact start_deref_old _ _ _ _ _ hh
  · rw [start_deref_new]
    by_cases hd : b.DEBUG = true <;> by_cases hl : logLevel ≥ b.LogLevelDebug <;>
      simp [hd, hl, QProcess.new, QProcess.setProcessChannelMode, QProcess.start,
        QProcess.setStandardOutputFile, QProcess.setStandardErrorFile]
  · intro hd
    have hnew : ((start b logLevel arguments w).deref w.heap.length).program =
          some (w.applicationFilePath, arguments) ∧
        ((start b logLevel arguments w).deref w.heap.length).state = .Starting ∧
        ((start b logLevel arguments w).deref w.heap.length).os = .launching ∧
        ((start b logLevel arguments w).deref w.heap.length).deleted = false := by
      rw [start_deref_new]
      by_cases hl : logLevel ≥ b.LogLevelDebug <;>
        simp [hd, hl, QProcess.new, QProcess.setProcessChannelMode, QProcess.start,
          QProcess.setStandardOutputFile, QProcess.setStandardErrorFile]
    refine ⟨hnew.1, hnew.2.1, hnew.2.2.1, ?_, ?_, ?_⟩
    · rw [start_unfold]
      simp [hd]
    · have hm : ((start b logLevel arguments w).update w.heap.length
          QProcess.osLaunchFailed).m_process = some w.heap.length := by
        rw [update_m_process, start_m_process]
      unfold isRunning
      rw [hm]
      simp only
      rw [deref_update_same _ _ _ (by simpa using hlen), deref_update_same _ _ _ hlen]
      simp [QProcess.osLaunchFailed, QProcess.poll, hnew.2.1, hnew.2.2.1, hnew.2.2.2]
    · rw [isRunning_snd]
      simp [start_m_process]
  · intro hd
    refine ⟨?_, ?_, ?_⟩
    · rw [start_deref_new]
      by_cases hl : logLevel ≥ b.LogLevelDebug <;>
        simp [hd, hl, QProcess.new, QProcess.setProcessChannelMode,
          QProcess.setStandardOutputFile, QProcess.setStandardErrorFile]
    · rw [start_deref_new]
      by_cases hl : logLevel ≥ b.LogLevelDebug <;>
        simp [hd, hl, QProcess.new, QProcess.setProcessChannelMode,
          QProcess.setStandardOutputFile, QProcess.setStandardErrorFile]
    · rw [start_unfold]
      simp [hd]

theorem start_tracks_new_witness :
    qt5Build.DEBUG = false ∧
    ((start qt5Build 3 ["-a", "-b"] (oneRunning qt5Build)).deref 1).program =
      some ("/usr/bin/slave", ["-a", "-b"]) ∧
    (start qt5Build 3 ["-a", "-b"] (oneRunning qt5Build)).m_process = some 1 :=
  ⟨rfl, ((start_tracks_new qt5Build 3 ["-a", "-b"] (oneRunning qt5Build)).2.2.2.2.1 rfl).1,
    (start_tracks_new qt5Build 3 ["-a", "-b"] (oneRunning qt5Build)).1⟩

/-! ## Ownership of process objects -/

theorem armed_killTimer (b : Build) (w : World) (h : Handle)
    (ht : (w.deref h).timers = [killTimer b h]) : w.armedTimers h = [killTimer b h] := by
  simp [World.armedTimers, ht, killTimer_active]

theorem armed_nil (w : World) (h : Handle) (ht : (w.deref h).timers = []) :
    w.armedTimers h = [] := by
  simp [World.armedTimers, ht]

/-- With the invariant, an object that is neither tracked nor destroyed is on
the escalation path. -/
theorem escalating_of_inv {b : Build} {w : World} (hw : Inv b w) {h : Handle}
    (hh : h < w.heap.length) (hm : w.m_process ≠ some h)
    (hd : (w.deref h).deleted = false) : w.isEscalating h := by
  rcases (hw.shape h hh).untracked hm with h1 | h1
  · rw [h1.1] at hd
    cases hd
  · refine ⟨hm, hd, ⟨killTimer b h, armed_killTimer b w h h1.2.1, killTimer_interval b h⟩, ?_⟩
    rw [h1.2.2.1]
    exact Nat.one_pos

theorem length_step {b : Build} {w w1 : World} (e : Event) (hr : step b w e = .ok w1) :
    w1.heap.length = w.heap.length + (if e.isStart then 1 else 0) := by
  cases e with
  | timeout k i => exact (routing_timeout k i hr 0).2
  | start logLevel arguments =>
    injection hr with hr; subst hr
    exact start_length _ _ _ _
  | stop =>
    injection hr with hr; subst hr
    exact stop_length b w
  | isRunning =>
    injection hr with hr; subst hr
    rw [isRunning_snd]
    split
    · simp [Event.isStart]
    · rfl
  | osLaunched k => injection hr with hr; subst hr; simp [Event.isStart]
  | osLaunchFailed k => injection hr with hr; subst hr; simp [Event.isStart]
  | osExited k => injection hr with hr; subst hr; simp [Event.isStart]
  | processEvents k => injection hr with hr; subst hr; simp [Event.isStart]

theorem length_run {b : Build} (es : List Event) {w w1 : World} (hr : run b w es = .ok w1) :
    w1.heap.length = w.heap.length + es.countP Event.isStart := by
  induction es generalizing w with
  | nil =>
    simp only [run] at hr
    injection hr with hr
    subst hr
    rfl
  | cons e es ih =>
    simp only [run] at hr
    split at hr
    · next w2 h2 =>
      rw [ih hr, length_step e h2, List.countP_cons]
      omega
    · cases hr

/-- State invariant of process objects: in every world reached by a trace of
events from a fresh launcher, the heap holds exactly one process object per
`start()` call of the trace, and each of them is in exactly one of three
conditions: it is the tracked one (not destroyed, no timer); or it has been
destroyed (with its timers); or it is untracked and alive as an object with
exactly one armed timer of 5000 ms and `finished` connected to `deleteLater`.
Whether that connection ever runs is a separate matter. -/
theorem heap_object_conditions (b : Build) (path : String) (es : List Event) (w : World)
    (hr : run b (QtSlaveLauncher path) es = .ok w) :
    w.heap.length = es.countP Event.isStart ∧
    ∀ h, h < w.heap.length →
      (w.isTracked h ∧ ¬ w.isReleased h ∧ ¬ w.isEscalating h ∧ w.armedTimers h = []) ∨
      (¬ w.isTracked h ∧ w.isReleased h ∧ ¬ w.isEscalating h ∧ w.armedTimers h = []) ∨
      (¬ w.isTracked h ∧ ¬ w.isReleased h ∧ w.isEscalating h) := by
  have hw : Inv b w := inv_run es (inv_init b path) hr
  refine ⟨by simpa [QtSlaveLauncher] using length_run es hr, fun h hh => ?_⟩
  have hs := hw.shape h hh
  by_cases hm : w.m_process = some h
  · have ht := hs.tracked hm
    refine Or.inl ⟨hm, ?_, fun he => he.1 hm, armed_nil w h ht.2.1⟩
    unfold World.isReleased
    rw [ht.1]
    simp
  · by_cases hd : (w.deref h).deleted = true
    · rcases hs.untracked hm with h1 | h1
      · refine Or.inr (Or.inl ⟨hm, hd, fun he => ?_, armed_nil w h h1.2.1⟩)
        have := he.2.1
        rw [hd] at this
        cases this
      · rw [h1.1] at hd
        cases hd
    · have hd2 : (w.deref h).deleted = false := by simpa using hd
      exact Or.inr (Or.inr ⟨hm, hd, escalating_of_inv hw hh hm hd2⟩)

/-! ## Restarting -/

/-- Without `DEBUG`, the object created by `start()` is being launched. -/
theorem start_new_launching (b : Build) (logLevel : Int) (arguments : List String) (w : World)
    (hd : b.DEBUG = false) :
    ((start b logLevel arguments w).deref w.heap.length).state = .Starting ∧
    ((start b logLevel arguments w).deref w.heap.length).os = .launching ∧
    ((start b logLevel arguments w).deref w.heap.length).deleted = false := by
  rw [start_deref_new]
  by_cases hl : logLevel ≥ b.LogLevelDebug <;>
    simp [hd, hl, QProcess.new, QProcess.setProcessChannelMode, QProcess.start,
      QProcess.setStandardOutputFile, QProcess.setStandardErrorFile]

theorem restarted_reachable : Reachable qt5Build restarted :=
  ⟨"/usr/bin/slave",
    [.start 3 ["-a"], .osLaunched 0, .processEvents 0,
     .start 3 ["-b"], .osLaunched 1, .processEvents 1], rfl⟩

/-- C1, as stated, fails: after `start`, a successful launch, a second `start`
and a second successful launch, the children of process objects 0 and 1 both
run at the OS level, and neither `terminate()` nor `kill()` has been called
on the first. -/
theorem two_children_run_together :
    run qt5Build (QtSlaveLauncher "/usr/bin/slave")
      [.start 3 ["-a"], .osLaunched 0, .processEvents 0,
       .start 3 ["-b"], .osLaunched 1, .processEvents 1] = .ok restarted ∧
    restarted.runningAtOs 0 ∧ restarted.runningAtOs 1 ∧
    (restarted.deref 0).state = .Running ∧ (restarted.deref 0).requests = [] := by
  refine ⟨rfl, ?_, ?_, rfl, rfl⟩ <;> decide

/-- C1, amended: in every reachable world a child that runs at the OS level
and is not the tracked one is on the escalation path (one armed 5000 ms timer,
`finished` connected to `deleteLater`), and at most one process object is
tracked.  For `start` called twice in succession: the second call tracks a new object, the first object is no longer
tracked, it is exactly as the `stop()` inside the second call left it, namely
destroyed or on the escalation path, neither `terminate()` nor `kill()` has
been called on it, and without `DEBUG` it is on the escalation path.  Its
child may still run while the second one runs. -/
theorem untracked_running_child_escalates (b : Build) (w : World) (hw : Reachable b w) :
    (∀ h k, w.isTracked h → w.isTracked k → h = k) ∧
    (∀ h, w.runningAtOs h → ¬ w.isTracked h → w.isEscalating h) ∧
    (∀ l1 a1 l2 a2,
      (start b l2 a2 (start b l1 a1 w)).isTracked (w.heap.length + 1) ∧
      ¬ (start b l2 a2 (start b l1 a1 w)).isTracked w.heap.length ∧
      (start b l2 a2 (start b l1 a1 w)).deref w.heap.length =
        (stop b (start b l1 a1 w)).deref w.heap.length ∧
      ((start b l2 a2 (start b l1 a1 w)).deref w.heap.length).requests = [] ∧
      ((stop b (start b l1 a1 w)).isReleased w.heap.length ∨
        (stop b (start b l1 a1 w)).isEscalating w.heap.length) ∧
      (b.DEBUG = false → (start b l2 a2 (start b l1 a1 w)).isEscalating w.heap.length)) := by
  have hi := inv_of_reachable hw
  refine ⟨fun h k hh hk => ?_, fun h hr hm => ?_, fun l1 a1 l2 a2 => ?_⟩
  · have h1 : w.m_process = some h := hh
    have h2 : w.m_process = some k := hk
    rw [h1] at h2
    exact Option.some.inj h2
  · have hos : (w.deref h).os = .alive := hr
    by_cases hh : h < w.heap.length
    · have hs := hi.shape h hh
      by_cases hd : (w.deref h).deleted = true
      · have hc := hs.coh
        rw [hs.dead hd, hos] at hc
        simp [coherent] at hc
      · exact escalating_of_inv hi hh hm (by simpa using hd)
    · rw [deref_of_length_le w h (Nat.le_of_not_lt hh)] at hos
      simp [QProcess.destroyed, QProcess.new] at hos
  · have hi1 : Inv b (start b l1 a1 w) := inv_start l1 a1 hi
    have hi2 : Inv b (start b l2 a2 (start b l1 a1 w)) := inv_start l2 a2 hi1
    have hl1 : (start b l1 a1 w).heap.length = w.heap.length + 1 := start_length _ _ _ _
    have hlt : w.heap.length < (start b l1 a1 w).heap.length := by omega
    have hm2 : (start b l2 a2 (start b l1 a1 w)).m_process = some (w.heap.length + 1) := by
      rw [start_m_process, hl1]
    have hne : (start b l2 a2 (start b l1 a1 w)).m_process ≠ some w.heap.length := by
      rw [hm2]
      simp
    have hold := start_deref_old b l2 a2 (start b l1 a1 w) w.heap.length hlt
    have his := inv_stop (b := b) hi1
    have hlt2 : w.heap.length < (stop b (start b l1 a1 w)).heap.length := by
      rw [stop_length]; exact hlt
    have hnone : (stop b (start b l1 a1 w)).m_process ≠ some w.heap.length := by
      rw [stop_m_process]
      simp
    refine ⟨hm2, hne, hold, ?_, ?_, fun hd => ?_⟩
    · have hreq : ((start b l1 a1 w).deref w.heap.length).requests = [] := by
        rw [start_deref_new]
        by_cases hd : b.DEBUG = true <;> by_cases hl : l1 ≥ b.LogLevelDebug <;>
          simp [hd, hl, QProcess.new, QProcess.setProcessChannelMode, QProcess.start,
            QProcess.setStandardOutputFile, QProcess.setStandardErrorFile]
      rw [hold, stop_deref]
      split
      · split
        · exact hreq
        · exact hreq
      · exact hreq
    · by_cases hdel : ((stop b (start b l1 a1 w)).deref w.heap.length).deleted = true
      · exact Or.inl hdel
      · exact Or.inr (escalating_of_inv his hlt2 hnone (by simpa using hdel))
    · have hl2 : w.heap.length < (start b l2 a2 (start b l1 a1 w)).heap.length := by
        rw [start_length, hl1]
        omega
      refine escalating_of_inv hi2 hl2 hne ?_
      have hn := start_new_launching b l1 a1 w hd
      rw [hold, stop_deref, if_pos ⟨start_m_process _ _ _ _, hlt⟩,
        if_pos (by rw [hn.1]; simp)]
      exact hn.2.2

theorem untracked_running_child_escalates_witness :
    Reachable qt5Build restarted ∧ restarted.runningAtOs 0 ∧ ¬ restarted.isTracked 0 ∧
    restarted.isEscalating 0 :=
  ⟨restarted_reachable, by decide, by decide,
    (untracked_running_child_escalates qt5Build restarted restarted_reachable).2.1 0
      (by decide) (by decide)⟩

/-! ## What a firing kill timer does -/

/-- Qt 5 branch: the lambda warns and then calls `terminate()` and `kill()`
through `m_process` as it is when the timer fires. -/
theorem fire_qt5 (b : Build) (hq : b.QT_VERSION ≥ 0x050000) (w : World) (k : Handle) :
    invokeAll (killTimer b k).timeoutSlots w =
      match w.m_process with
      | some h0 =>
        .ok (({ w with log := w.log ++ [LogEntry.warning stillRunningText] }.update h0
          QProcess.terminate).update h0 QProcess.kill)
      | none => .error .nullPointerDereference := by
  unfold killTimer
  rw [if_pos hq]
  simp only [QTimer.new, QTimer.connectTimeout, QTimer.start, List.nil_append, invokeAll,
    Slot.invoke]
  cases w.m_process <;> rfl

/-- Qt 4 branch: `terminate()` and then `kill()` of the process object the
timer belongs to. -/
theorem fire_qt4 (b : Build) (hq : ¬ b.QT_VERSION ≥ 0x050000) (w : World) (k : Handle) :
    invokeAll (killTimer b k).timeoutSlots w =
      .ok ((w.update k QProcess.terminate).update k QProcess.kill) := by
  unfold killTimer
  rw [if_neg hq]
  rfl

/-! ## Destroyed objects never change -/

theorem dead_os {b : Build} {m : Option Handle} {h : Handle} {p : QProcess}
    (hs : Shape b m h p) (hd : p.deleted = true) : p.os ≠ .launching ∧ p.os ≠ .alive := by
  have hc := hs.coh
  rw [hs.dead hd] at hc
  cases ho : p.os <;> simp_all [coherent]

theorem frozen_update {b : Build} {w : World} (hw : Inv b w) (k h : Handle)
    (f : QProcess → QProcess)
    (hf : ∀ p, Shape b w.m_process h p → p.deleted = true → f p = p)
    (hd : (w.deref h).deleted = true) : (w.update k f).deref h = w.deref h := by
  rw [deref_update]
  split
  · next hk => exact hf _ (hw.shape h (hk.1 ▸ hk.2)) hd
  · rfl

theorem frozen_poll (p : QProcess) (hd : p.deleted = true) : p.poll = p := by
  unfold QProcess.poll
  rw [if_pos hd]

theorem frozen_stop {b : Build} {w : World} (hw : Inv b w) (h : Handle)
    (hd : (w.deref h).deleted = true) : (stop b w).deref h = w.deref h := by
  rw [stop_deref]
  split
  · next hk =>
    have := ((hw.shape h hk.2).tracked hk.1).1
    rw [hd] at this
    cases this
  · rfl

theorem frozen_timeout {b : Build} {w w1 : World} (hw : Inv b w) (k i : Nat)
    (hr : timeout w k i = .ok w1) (h : Handle) (hh : h < w.heap.length)
    (hd : (w.deref h).deleted = true) : w1.deref h = w.deref h := by
  have hnt : ∀ h0, w.m_process = some h0 → h0 ≠ h := by
    intro h0 hm he
    subst he
    have := ((hw.shape h0 hh).tracked hm).1
    rw [hd] at this
    cases this
  rw [timeout_of_inv hw] at hr
  split at hr
  · next t ht =>
    have hk := (timer_of_inv hw ht).2.2.2.2.1
    have hkh : h ≠ k := by
      intro he
      subst he
      rw [hd] at hk
      cases hk
    by_cases hq : b.QT_VERSION ≥ 0x050000
    · rw [fire_qt5 b hq] at hr
      split at hr
      · next h0 hm =>
        injection hr with hr
        subst hr
        have hne : h ≠ h0 := fun he => hnt h0 hm he.symm
        rw [deref_update_ne _ _ _ _ hne, deref_update_ne _ _ _ _ hne]
        rfl
      · cases hr
    · rw [fire_qt4 b hq] at hr
      injection hr with hr
      subst hr
      rw [deref_update_ne _ _ _ _ hkh, deref_update_ne _ _ _ _ hkh]
  · injection hr with hr
    subst hr
    rfl

theorem frozen_step {b : Build} {w w1 : World} (hw : Inv b w) (e : Event)
    (hr : step b w e = .ok w1) (h : Handle) (hh : h < w.heap.length)
    (hd : (w.deref h).deleted = true) : w1.deref h = w.deref h := by
  cases e with
  | timeout k i => exact frozen_timeout hw k i hr h hh hd
  | start logLevel arguments =>
    injection hr with hr; subst hr
    rw [start_deref_old _ _ _ _ _ hh]
    exact frozen_stop hw h hd
  | stop =>
    injection hr with hr; subst hr
    exact frozen_stop hw h hd
  | isRunning =>
    injection hr with hr; subst hr
    rw [isRunning_snd]
    split
    · exact frozen_update hw _ h _ (fun p _ hp => frozen_poll p hp) hd
    · rfl
  | osLaunched k =>
    injection hr with hr; subst hr
    refine frozen_update hw _ h _ (fun p hs hp => ?_) hd
    unfold QProcess.osLaunched
    rw [if_neg (dead_os hs hp).1]
  | osLaunchFailed k =>
    injection hr with hr; subst hr
    refine frozen_update hw _ h _ (fun p hs hp => ?_) hd
    unfold QProcess.osLaunchFailed
    rw [if_neg (dead_os hs hp).1]
  | osExited k =>
    injection hr with hr; subst hr
    refine frozen_update hw _ h _ (fun p hs hp => ?_) hd
    unfold QProcess.osExited
    rw [if_neg (dead_os hs hp).2]
  | processEvents k =>
    injection hr with hr; subst hr
    exact frozen_update hw _ h _ (fun p _ hp => frozen_poll p hp) hd

theorem frozen_run {b : Build} (es : List Event) {w w1 : World} (hw : Inv b w)
    (hr : run b w es = .ok w1) (h : Handle) (hh : h < w.heap.length)
    (hd : (w.deref h).deleted = true) : w1.deref h = w.deref h := by
  induction es generalizing w with
  | nil =>
    simp only [run] at hr
    injection hr with hr
    subst hr
    rfl
  | cons e es ih =>
    simp only [run] at hr
    split at hr
    · next w2 h2 =>
      have h3 := frozen_step hw e h2 h hh hd
      have h4 := length_step e h2
      have h5 : w.heap.length ≤ w2.heap.length := by omega
      rw [ih (inv_step e hw h2) hr (Nat.lt_of_lt_of_le hh h5) (by rw [h3]; exact hd), h3]
    · cases hr

/-! ## Natural exit on the escalation path -/

/-- C5, as stated, fails: a child on the escalation path can exit on its own
before its timer has fired, and the timer still fires afterwards, as long as
the event loop has not yet delivered the exit to the process object.  In the
world after `stop()` of a running child and the exit of that child, object 0
is on the escalation path, its child has exited and no request was made on
it; its timer firing next calls `terminate()` and `kill()` on it in a Qt 4
build, calls a member through the `NULL` `m_process` in a Qt 5 build, and
after a restart in a Qt 5 build writes the warning line and calls
`terminate()` and `kill()` on the tracked object 1. -/
theorem timer_fires_between_exit_and_delivery :
    stoppedThenExited.isEscalating 0 ∧ (stoppedThenExited.deref 0).os = .exited ∧
    (stoppedThenExited.deref 0).requests = [] ∧ stoppedThenExited.log = [] ∧
    timeout stoppedThenExited 0 0 = .error .nullPointerDereference ∧
    ((run qt4Build (QtSlaveLauncher "/usr/bin/slave") exitThenFire).map
      (fun w => ((w.deref 0).os, (w.deref 0).requests, w.log))) =
      .ok (.exited, [.terminate, .kill], []) ∧
    ((run qt5Build (QtSlaveLauncher "/usr/bin/slave") restartExitThenFire).map
      (fun w => ((w.deref 0).os, (w.deref 0).requests, (w.deref 1).requests, w.log))) =
      .ok (.exited, [], [.terminate, .kill], [LogEntry.warning stillRunningText]) :=
  ⟨⟨by decide, by decide, ⟨killTimer qt5Build 0, rfl, rfl⟩, by decide⟩,
    rfl, rfl, rfl, rfl, rfl, rfl⟩

/-- C5, amended: when a process object on the escalation path has a child that
exited and the event loop delivers that exit to the object, `finished` runs
`deleteLater`: the object is destroyed together with its timer, no request
was made on it by the delivery and nothing is logged.  From then on, whatever
happens, the object stays destroyed, a firing of any of its timers does
nothing at all (no request, no warning), and no `terminate()` or `kill()` is
ever made on it.  Nothing is said about a firing that comes before the
delivery. -/
theorem exit_hook_cancels_escalation (b : Build) (w : World) (hw : Reachable b w)
    (h : Handle) (hesc : w.isEscalating h) (hex : (w.deref h).os = .exited) :
    ∃ w1, step b w (.processEvents h) = .ok w1 ∧
      w1.isReleased h ∧ (w1.deref h).timers = [] ∧
      (w1.deref h).requests = (w.deref h).requests ∧ w1.log = w.log ∧
      ∀ es w2, run b w1 es = .ok w2 →
        w2.isReleased h ∧ (∀ i, timeout w2 h i = .ok w2) ∧
        (w2.deref h).requests = (w.deref h).requests := by
  have hi := inv_of_reachable hw
  obtain ⟨hm, hd, _, _⟩ := hesc
  have hh : h < w.heap.length := by
    by_contra hc
    rw [deref_of_length_le w h (Nat.le_of_not_lt hc)] at hd
    simp [QProcess.destroyed] at hd
  have hs := hi.shape h hh
  have hone : (w.deref h).finishedDeleteLater = 1 ∧
      ((w.deref h).state = .NotRunning → (w.deref h).os = .failed) := by
    rcases hs.untracked hm with h1 | h1
    · rw [h1.1] at hd
      cases hd
    · exact ⟨h1.2.2.1, h1.2.2.2⟩
  have hpoll : (w.deref h).poll.deleted = true ∧ (w.deref h).poll.timers = [] ∧
      (w.deref h).poll.requests = (w.deref h).requests := by
    have hc := hs.coh
    have h1 := hone.1
    have h2 := hone.2
    revert hc h1 h2 hd hex
    generalize w.deref h = p
    obtain ⟨st, os, _, _, _, _, _, fdl, _, del⟩ := p
    intro hex hd hc h1 h2
    simp only at hex hd hc h1 h2
    subst hex hd h1
    cases st <;> simp [QProcess.poll, QProcess.emitFinished, QProcess.destroy, coherent] at hc h2 ⊢
  refine ⟨w.update h QProcess.poll, rfl, ?_, ?_, ?_, rfl, fun es w2 hr => ?_⟩
  · show ((w.update h QProcess.poll).deref h).deleted = true
    rw [deref_update_same _ _ _ hh]
    exact hpoll.1
  · rw [deref_update_same _ _ _ hh]
    exact hpoll.2.1
  · rw [deref_update_same _ _ _ hh]
    exact hpoll.2.2
  · have hi1 : Inv b (w.update h QProcess.poll) :=
      inv_update _ _ (fun _ _ hs => shape_poll hs) hi
    have h1 : (w.update h QProcess.poll).deref h = (w.deref h).poll :=
      deref_update_same _ _ _ hh
    have hf := frozen_run es hi1 hr h (by simpa using hh) (by rw [h1]; exact hpoll.1)
    refine ⟨?_, fun i => ?_, ?_⟩
    · show (w2.deref h).deleted = true
      rw [hf, h1]
      exact hpoll.1
    · unfold timeout
      rw [hf, h1, hpoll.2.1]
      rfl
    · rw [hf, h1]
      exact hpoll.2.2

theorem stoppedThenExited_reachable : Reachable qt5Build stoppedThenExited :=
  ⟨"/usr/bin/slave",
    [.start 3 ["-a"], .osLaunched 0, .processEvents 0, .stop, .osExited 0], rfl⟩

theorem exit_hook_cancels_escalation_witness :
    Reachable qt5Build stoppedThenExited ∧ stoppedThenExited.isEscalating 0 ∧
    (stoppedThenExited.deref 0).os = .exited ∧
    ∃ w1, step qt5Build stoppedThenExited (.processEvents 0) = .ok w1 ∧ w1.isReleased 0 := by
  have hesc : stoppedThenExited.isEscalating 0 :=
    ⟨by decide, by decide, ⟨killTimer qt5Build 0, rfl, rfl⟩, by decide⟩
  obtain ⟨w1, h1, h2, _⟩ :=
    exit_hook_cancels_escalation qt5Build stoppedThenExited stoppedThenExited_reachable 0
      hesc rfl
  exact ⟨stoppedThenExited_reachable, hesc, rfl, w1, h1, h2⟩

/-! ## The kill timer -/

/-- C4, as stated, fails: the timer is not single-shot.  Qt 4 build: after one
`stop()` of a running child its timer fires twice, `terminate()` and `kill()`
are each called twice on the child and the timer is still armed.  Qt 5 build:
after one `stop()` of a running child (inside the second `start`) the warning
line is written twice and the timer is still armed. -/
theorem kill_timer_fires_again :
    run qt4Build (QtSlaveLauncher "/usr/bin/slave")
      [.start 3 ["-a"], .osLaunched 0, .processEvents 0, .stop, .timeout 0 0, .timeout 0 0]
      = .ok firedTwiceQt4 ∧
    (firedTwiceQt4.deref 0).requests = [.terminate, .kill, .terminate, .kill] ∧
    firedTwiceQt4.armedTimers 0 = [killTimer qt4Build 0] ∧
    run qt5Build (QtSlaveLauncher "/usr/bin/slave")
      [.start 3 ["-a"], .osLaunched 0, .processEvents 0, .start 3 ["-b"],
       .timeout 0 0, .timeout 0 0] = .ok firedTwiceQt5 ∧
    firedTwiceQt5.log =
      [LogEntry.warning stillRunningText, LogEntry.warning stillRunningText] ∧
    firedTwiceQt5.armedTimers 0 = [killTimer qt5Build 0] :=
  ⟨rfl, rfl, rfl, rfl, rfl, rfl⟩

/-- C4, amended: in a reachable world, `stop()` on a tracked process whose
state is not `NotRunning` gives that process object exactly one timer, armed,
with an interval of 5000 ms, and touches the timers of no other object;
`stop()` with nothing tracked or on a `NotRunning` process arms no timer.
The timer is not single-shot: when a timer fires (and the callback does not
fault) every timer, the fired one included, is left as it was, still armed,
so it fires again 5000 ms later for as long as its process object exists. -/
theorem stop_arms_repeating_timer (b : Build) (w : World) (hw : Reachable b w) :
    (∀ h, w.m_process = some h → (w.deref h).state ≠ .NotRunning →
      ((stop b w).deref h).timers = [killTimer b h] ∧
      (stop b w).armedTimers h = [killTimer b h] ∧
      (killTimer b h).interval = 5000 ∧ (killTimer b h).active = true ∧
      (killTimer b h).singleShot = false ∧
      ∀ k, k ≠ h → ((stop b w).deref k).timers = (w.deref k).timers) ∧
    ((∀ h, w.m_process = some h → (w.deref h).state = .NotRunning) →
      ∀ k, ((stop b w).deref k).timers = (w.deref k).timers) ∧
    (∀ h i w1, timeout w h i = .ok w1 →
      ∀ k, (w1.deref k).timers = (w.deref k).timers ∧ w1.armedTimers k = w.armedTimers k) := by
  have hi := inv_of_reachable hw
  refine ⟨fun h hm hst => ?_, fun hall k => ?_, fun h i w1 hr k => ?_⟩
  · have hh := hi.valid h hm
    have ht := ((hi.shape h hh).tracked (by rw [hm])).2.1
    have h1 : ((stop b w).deref h).timers = [killTimer b h] := by
      rw [stop_deref, if_pos ⟨hm, hh⟩, if_pos hst]
      show (w.deref h).timers ++ [killTimer b h] = [killTimer b h]
      rw [ht]
      rfl
    refine ⟨h1, armed_killTimer b _ h h1, killTimer_interval b h, killTimer_active b h,
      killTimer_singleShot b h, fun k hk => ?_⟩
    rw [stop_deref, if_neg]
    rw [hm]
    intro hc
    simp only [Option.some.injEq] at hc
    exact hk hc.1.symm
  · rw [stop_deref]
    split
    · next hk =>
      rw [if_neg (by simp [hall k hk.1])]
      have ht := ((hi.shape k hk.2).tracked hk.1).2.1
      rw [ht]
      rfl
    · rfl
  · rw [timeout_of_inv hi] at hr
    have hk : (w1.deref k).timers = (w.deref k).timers := by
      split at hr
      · exact (invokeAll_keeps QProcess.timers (fun _ => rfl) (fun _ => rfl) _ hr k).1
      · injection hr with hr
        subst hr
        rfl
    exact ⟨hk, by unfold World.armedTimers; rw [hk]⟩

theorem stop_arms_repeating_timer_witness :
    Reachable qt5Build (oneRunning qt5Build) ∧
    (oneRunning qt5Build).m_process = some 0 ∧
    ((oneRunning qt5Build).deref 0).state ≠ .NotRunning ∧
    (stop qt5Build (oneRunning qt5Build)).armedTimers 0 = [killTimer qt5Build 0] :=
  ⟨oneRunning_reachable qt5Build, rfl, by decide,
    ((stop_arms_repeating_timer qt5Build (oneRunning qt5Build)
      (oneRunning_reachable qt5Build)).1 0 rfl (by decide)).2.1⟩

/-- C2: what the code does when the timer armed by `stop()` for a running
child `P` (process object 0) fires while `P` still runs.  Qt 5 build, a
`start` in between: the warning is written, `terminate()` and `kill()` are
called on the newly tracked process object 1, none on `P`, and `P` keeps
running.  Qt 5 build, nothing in between: the callback calls a member through
the `NULL` `m_process`.  Qt 4 build, a `start` in between: `terminate()` and
then `kill()` are called on `P`, and no warning is written. -/
theorem lambda_addresses_tracked_process :
    ((run qt5Build (QtSlaveLauncher "/usr/bin/slave") stopStartFire).map
      (fun w => ((w.deref 0).requests, (w.deref 0).os, (w.deref 1).requests, w.log))) =
      .ok ([], .alive, [.terminate, .kill], [LogEntry.warning stillRunningText]) ∧
    run qt5Build (QtSlaveLauncher "/usr/bin/slave") stopFire =
      .error .nullPointerDereference ∧
    ((run qt4Build (QtSlaveLauncher "/usr/bin/slave") stopStartFire).map
      (fun w => ((w.deref 0).requests, (w.deref 1).requests, w.log))) =
      .ok ([.terminate, .kill], [], []) :=
  ⟨rfl, rfl, rfl⟩

/-! ## A launch that fails after stop() -/

theorem poll_of_notRunning (p : QProcess) (hst : p.state = .NotRunning) : p.poll = p := by
  unfold QProcess.poll
  split
  · rfl
  · split <;> simp_all

theorem timeout_m_process {b : Build} {w w1 : World} (hw : Inv b w) (k i : Nat)
    (hr : timeout w k i = .ok w1) : w1.m_process = w.m_process := by
  rw [timeout_of_inv hw] at hr
  split at hr
  · by_cases hq : b.QT_VERSION ≥ 0x050000
    · rw [fire_qt5 b hq] at hr
      split at hr
      · injection hr with hr
        subst hr
        rfl
      · cases hr
    · rw [fire_qt4 b hq] at hr
      injection hr with hr
      subst hr
      rfl
  · injection hr with hr
    subst hr
    rfl

/-- An untracked, undestroyed process object whose state is `NotRunning`
stays so through every event. -/
theorem stuck_step {b : Build} {w w1 : World} (hw : Inv b w) (e : Event)
    (hr : step b w e = .ok w1) (h : Handle) (hh : h < w.heap.length)
    (hm : w.m_process ≠ some h) (hd : (w.deref h).deleted = false)
    (hst : (w.deref h).state = .NotRunning) :
    w1.m_process ≠ some h ∧ (w1.deref h).deleted = false ∧
      (w1.deref h).state = .NotRunning := by
  have keep : ∀ (k : Handle) (f : QProcess → QProcess),
      (∀ p, (f p).deleted = p.deleted ∧ (f p).state = p.state) →
      (w.update k f).m_process ≠ some h ∧ ((w.update k f).deref h).deleted = false ∧
        ((w.update k f).deref h).state = .NotRunning := by
    intro k f hf
    refine ⟨hm, ?_, ?_⟩
    · rw [update_keeps (fun p => p.deleted) w k h f (fun p => (hf p).1)]
      exact hd
    · rw [update_keeps (fun p => p.state) w k h f (fun p => (hf p).2)]
      exact hst
  have keepPoll : ∀ k : Handle,
      (w.update k QProcess.poll).m_process ≠ some h ∧
        ((w.update k QProcess.poll).deref h).deleted = false ∧
        ((w.update k QProcess.poll).deref h).state = .NotRunning := by
    intro k
    have he : (w.update k QProcess.poll).deref h = w.deref h := by
      rw [deref_update]
      split
      · exact poll_of_notRunning _ hst
      · rfl
    rw [he]
    exact ⟨hm, hd, hst⟩
  have hstop : (stop b w).deref h = w.deref h := by
    rw [stop_deref, if_neg (fun hc => hm hc.1)]
  cases e with
  | timeout k i =>
    have hr : timeout w k i = .ok w1 := hr
    refine ⟨by rw [timeout_m_process hw k i hr]; exact hm, ?_, ?_⟩
    · rw [timeout_of_inv hw] at hr
      split at hr
      · rw [(invokeAll_keeps (fun p => p.deleted) (fun _ => rfl) (fun _ => rfl) _ hr h).1]
        exact hd
      · injection hr with hr
        subst hr
        exact hd
    · rw [timeout_of_inv hw] at hr
      split at hr
      · rw [(invokeAll_keeps (fun p => p.state) (fun _ => rfl) (fun _ => rfl) _ hr h).1]
        exact hst
      · injection hr with hr
        subst hr
        exact hst
  | start logLevel arguments =>
    injection hr with hr; subst hr
    refine ⟨?_, ?_, ?_⟩
    · rw [start_m_process]
      intro hc
      simp only [Option.some.injEq] at hc
      exact absurd hh (by rw [hc]; exact Nat.lt_irrefl _)
    · rw [start_deref_old _ _ _ _ _ hh, hstop]
      exact hd
    · rw [start_deref_old _ _ _ _ _ hh, hstop]
      exact hst
  | stop =>
    injection hr with hr; subst hr
    refine ⟨by rw [stop_m_process]; simp, ?_, ?_⟩
    · rw [hstop]; exact hd
    · rw [hstop]; exact hst
  | isRunning =>
    injection hr with hr; subst hr
    rw [isRunning_snd]
    split
    · exact keepPoll _
    · exact ⟨hm, hd, hst⟩
  | osLaunched k =>
    injection hr with hr; subst hr
    refine keep k _ (fun p => ?_)
    unfold QProcess.osLaunched
    split <;> exact ⟨rfl, rfl⟩
  | osLaunchFailed k =>
    injection hr with hr; subst hr
    refine keep k _ (fun p => ?_)
    unfold QProcess.osLaunchFailed
    split <;> exact ⟨rfl, rfl⟩
  | osExited k =>
    injection hr with hr; subst hr
    refine keep k _ (fun p => ?_)
    unfold QProcess.osExited
    split <;> exact ⟨rfl, rfl⟩
  | processEvents k =>
    injection hr with hr; subst hr
    exact keepPoll k

theorem stuck_run {b : Build} (es : List Event) {w w1 : World} (hw : Inv b w)
    (hr : run b w es = .ok w1) (h : Handle) (hh : h < w.heap.length)
    (hm : w.m_process ≠ some h) (hd : (w.deref h).deleted = false)
    (hst : (w.deref h).state = .NotRunning) :
    Inv b w1 ∧ h < w1.heap.length ∧ w1.m_process ≠ some h ∧
      (w1.deref h).deleted = false ∧ (w1.deref h).state = .NotRunning := by
  induction es generalizing w with
  | nil =>
    simp only [run] at hr
    injection hr with hr
    subst hr
    exact ⟨hw, hh, hm, hd, hst⟩
  | cons e es ih =>
    simp only [run] at hr
    split at hr
    · next w2 h2 =>
      have h3 := stuck_step hw e h2 h hh hm hd hst
      have h4 := length_step e h2
      have h5 : w.heap.length ≤ w2.heap.length := by omega
      exact ih (inv_step e hw h2) hr (Nat.lt_of_lt_of_le hh h5) h3.1 h3.2.1 h3.2.2
    · cases hr

theorem launchFailedAfterStop_reachable : Reachable qt4Build launchFailedAfterStop :=
  ⟨"/usr/bin/slave", stopThenLaunchFails, rfl⟩

/-- C10: what the code does when `stop()` comes while the child is still
`Starting` and the launch then fails.  `stop()` takes the timer branch
(`Starting` is not `NotRunning`) and connects only `finished`, which a failed
launch never emits.  After `start`, `stop`, the failed launch and its
delivery, process object 0 is untracked, not destroyed, `NotRunning`, with
its timer armed and `finished` connected to `deleteLater`; and after every
further sequence of events it is still untracked, still not destroyed and
still has its timer armed: the object is never released. -/
theorem failed_launch_handle_never_released :
    run qt4Build (QtSlaveLauncher "/usr/bin/slave") stopThenLaunchFails =
      .ok launchFailedAfterStop ∧
    ¬ launchFailedAfterStop.isTracked 0 ∧ ¬ launchFailedAfterStop.isReleased 0 ∧
    (launchFailedAfterStop.deref 0).state = .NotRunning ∧
    (launchFailedAfterStop.deref 0).os = .failed ∧
    launchFailedAfterStop.armedTimers 0 = [killTimer qt4Build 0] ∧
    (launchFailedAfterStop.deref 0).finishedDeleteLater = 1 ∧
    ∀ es w, run qt4Build launchFailedAfterStop es = .ok w →
      ¬ w.isTracked 0 ∧ ¬ w.isReleased 0 ∧ w.isEscalating 0 := by
  refine ⟨rfl, by decide, by decide, rfl, rfl, rfl, rfl, fun es w hr => ?_⟩
  have h := stuck_run es (inv_of_reachable launchFailedAfterStop_reachable) hr 0
    (by decide) (by decide) rfl rfl
  refine ⟨h.2.2.1, ?_, escalating_of_inv h.1 h.2.1 h.2.2.1 h.2.2.2.1⟩
  unfold World.isReleased
  rw [h.2.2.2.1]
  simp

theorem failed_launch_handle_never_released_witness :
    run qt4Build launchFailedAfterStop
      [.timeout 0 0, .processEvents 0, .start 3 ["-b"], .timeout 0 0, .stop] =
      .ok (runOr qt4Build launchFailedAfterStop
        [.timeout 0 0, .processEvents 0, .start 3 ["-b"], .timeout 0 0, .stop]) ∧
    ¬ (runOr qt4Build launchFailedAfterStop
        [.timeout 0 0, .processEvents 0, .start 3 ["-b"], .timeout 0 0, .stop]).isReleased 0 :=
  ⟨rfl, (failed_launch_handle_never_released.2.2.2.2.2.2.2
    [.timeout 0 0, .processEvents 0, .start 3 ["-b"], .timeout 0 0, .stop] _ rfl).2.1⟩

end Ipc
